import Mathlib

/-!
# ptmallocdump: a shallow embedding of `src/ptmallocdump.c`

The program walks the bookkeeping structures of glibc's ptmalloc directly in
memory and prints one line per chunk.  The embedding fixes the platform the
program is written for (x86-64 Linux, LP64, little-endian):

* `size_t`, `unsigned long`, `uintptr_t` and pointers are 64 bits wide; they
  are natural numbers below `WORD = 2^64`, and every C operation that can wrap
  is followed by an explicit `% WORD`;
* memory is a total map from addresses to bytes, read little-endian;
* the null pointer is address `0`;
* what the program prints is recorded as structured lines (one record per
  text line), in the order of the `fprintf`/`fwrite` calls.
-/

namespace PtMallocDump

/-! ## Constants and macros (lines 10-28 of the source) -/

/-- Modulus of `size_t`, `unsigned long` and pointer arithmetic. -/
def WORD : Nat := 2 ^ 64

/-- The macro `SIZE_SZ`, which is `sizeof(size_t)`. -/
def SIZE_SZ : Nat := 8

/-- The value of `__alignof__(long double)` on x86-64. -/
def ALIGNOF_LONG_DOUBLE : Nat := 16

/-- The macro `MALLOC_ALIGNMENT`. -/
def MALLOC_ALIGNMENT : Nat :=
  if 2 * SIZE_SZ < ALIGNOF_LONG_DOUBLE then ALIGNOF_LONG_DOUBLE else 2 * SIZE_SZ

/-- The macro `MALLOC_ALIGN_MASK`. -/
def MALLOC_ALIGN_MASK : Nat := MALLOC_ALIGNMENT - 1

/-- The macro `PREV_INUSE`. -/
def PREV_INUSE : Nat := 0x1

/-- The macro `IS_MMAPPED`. -/
def IS_MMAPPED : Nat := 0x2

/-- The macro `NON_MAIN_ARENA`. -/
def NON_MAIN_ARENA : Nat := 0x4

/-- The macro `SIZE_BITS`. -/
def SIZE_BITS : Nat := PREV_INUSE ||| IS_MMAPPED ||| NON_MAIN_ARENA

/-- The macro `DEFAULT_MMAP_THRESHOLD_MAX`, with `sizeof(long) = 8`. -/
def DEFAULT_MMAP_THRESHOLD_MAX : Nat := 4 * 1024 * 1024 * 8

/-- The macro `HEAP_MAX_SIZE`. -/
def HEAP_MAX_SIZE : Nat := 2 * DEFAULT_MMAP_THRESHOLD_MAX

/-- The macro `NFASTBINS`. -/
def NFASTBINS : Nat := 10

/-- The macro `NBINS`. -/
def NBINS : Nat := 128

/-- The null pointer. -/
def NULL : Nat := 0

/-- C's `~x` on a 64-bit unsigned operand (an `int` operand such as `~SIZE_BITS`
is sign-extended to 64 bits when combined with a `size_t`, which gives the same
value). -/
def bitNot (x : Nat) : Nat := WORD - 1 - x % WORD

/-- The macro `MIN`. -/
def MIN (a b : Nat) : Nat := if a < b then a else b

/-- The size computation of the macro `chunksize`, on the value `t` of the
field `mchunk_size`: `t & ~SIZE_BITS`. -/
def chunksize_of (t : Nat) : Nat := t &&& bitNot SIZE_BITS

/-- The macro `heap_for_ptr`. -/
def heap_for_ptr (ptr : Nat) : Nat := ptr &&& bitNot (HEAP_MAX_SIZE - 1)

/-! ## Memory and the three structures (lines 34-68 of the source) -/

/-- A memory image: the byte stored at each address.  Only the value modulo
256 of an entry is used. -/
abbrev Mem := Nat → Nat

/-- Reading one byte (`unsigned char`) at address `a`. -/
def load8 (mem : Mem) (a : Nat) : Nat := mem (a % WORD) % 256

/-- Reading a 64-bit little-endian word (`size_t` or pointer) at address `a`. -/
def load64 (mem : Mem) (a : Nat) : Nat :=
  load8 mem a + 256 * (load8 mem (a + 1) + 256 * (load8 mem (a + 2) +
    256 * (load8 mem (a + 3) + 256 * (load8 mem (a + 4) + 256 * (load8 mem (a + 5) +
    256 * (load8 mem (a + 6) + 256 * load8 mem (a + 7)))))))

/-- The value of `sizeof(struct heap_info)`: two pointers and two `size_t`
(`pad` has length zero). -/
def sizeof_heap_info : Nat := 4 * SIZE_SZ

/-- Offset of `top` in `struct malloc_state`: three `int` padded to the
alignment of a pointer, then `fastbinsY`. -/
def offsetof_top : Nat := 16 + NFASTBINS * 8

/-- Offset of `next` in `struct malloc_state`: after `top`, `last_remainder`,
`bins` and `binmap`. -/
def offsetof_next : Nat := offsetof_top + 8 + 8 + (NBINS * 2 - 2) * 8 + 4 * 4

/-- Offset of `system_mem` in `struct malloc_state`: after `next`, `next_free`
and `attached_threads`. -/
def offsetof_system_mem : Nat := offsetof_next + 8 + 8 + 8

/-- The value of `sizeof(struct malloc_state)`. -/
def sizeof_malloc_state : Nat := offsetof_system_mem + 8 + 8

/-- The field `heap->ar_ptr`. -/
def heap_ar_ptr (mem : Mem) (heap : Nat) : Nat := load64 mem heap

/-- The field `heap->prev`. -/
def heap_prev (mem : Mem) (heap : Nat) : Nat := load64 mem (heap + 8)

/-- The field `heap->size`. -/
def heap_size (mem : Mem) (heap : Nat) : Nat := load64 mem (heap + 16)

/-- The field `ar->top`. -/
def arena_top (mem : Mem) (ar : Nat) : Nat := load64 mem (ar + offsetof_top)

/-- The field `ar->next`. -/
def arena_next (mem : Mem) (ar : Nat) : Nat := load64 mem (ar + offsetof_next)

/-- The field `ar->system_mem`. -/
def arena_system_mem (mem : Mem) (ar : Nat) : Nat := load64 mem (ar + offsetof_system_mem)

/-- The field `p->mchunk_size`, the second word of a chunk. -/
def mchunk_size (mem : Mem) (p : Nat) : Nat := load64 mem (p + SIZE_SZ)

/-- The macro `chunksize(p)`. -/
def chunksize (mem : Mem) (p : Nat) : Nat := chunksize_of (mchunk_size mem p)

/-- The macro `chunkdata(p)`. -/
def chunkdata (p : Nat) : Nat := (p + 2 * SIZE_SZ) % WORD

/-! ## `generate_bindata_preview` (lines 70-88) -/

/-- The function `isprint` of `ctype.h` in the "C" locale, on a byte value. -/
def isprint (c : Nat) : Bool := decide (0x20 ≤ c ∧ c ≤ 0x7e)

/-- The byte stored in `output[i]` for the input byte `c`: the body of the
`for` loop. -/
def preview_byte (c : Nat) : Nat :=
  if isprint c then c else if c = 0 then 48 else 46

/-- Writing `output[i] = v` in a buffer of `output.length` bytes; `none` when
the index is outside the buffer. -/
def store_byte (output : List Nat) (i v : Nat) : Option (List Nat) :=
  if i < output.length then some (output.set i v) else none

/-- The `for` loop of `generate_bindata_preview`, with `n` iterations left and
loop counter `i`.  `input j` is the byte `input[j]`, or `none` when index `j`
lies outside the input buffer. -/
def generate_bindata_preview_loop (input : Nat → Option Nat) :
    Nat → Nat → List Nat → Option (List Nat)
  | 0, _, output => some output
  | n + 1, i, output =>
    match input i with
    | none => none
    | some c =>
      match store_byte output i (preview_byte c) with
      | none => none
      | some output1 => generate_bindata_preview_loop input n (i + 1) output1

/-- The function `generate_bindata_preview`: the final content of the output
buffer and the returned length, or `none` when an access falls outside a
buffer. -/
def generate_bindata_preview (output : List Nat) (output_size : Nat)
    (input : Nat → Option Nat) (input_size : Nat) : Option (List Nat × Nat) :=
  let len := if input_size < output_size then input_size else output_size
  match generate_bindata_preview_loop input len 0 output with
  | none => none
  | some output1 => some (output1, len)

/-! ## The environment and the printed lines -/

/-- Everything outside the program that its run depends on. -/
structure Env where
  /-- The result of `sysconf(_SC_PAGESIZE)`, converted to `size_t`. -/
  pageSize : Nat
  /-- Whether `fopen(path, "a")` succeeds. -/
  fopen : String → Bool
  /-- The system call `mincore(addr, length, vec)`: the bytes it stores in
  `vec[0], vec[1], ...` when it returns 0, or the value of `errno` when it
  fails. -/
  mincore : Nat → Nat → Except Nat (List Nat)
  /-- The indeterminate initial content of a local array, by index. -/
  stack : Nat → Nat

/-- The classification printed after `chunk %p size %10lu bytes`. -/
inductive Marker where
  /-- The string `" (top)  "`. -/
  | top
  /-- The string `" (fence)"`. -/
  | fence
  /-- The string `" [free] "`. -/
  | free
  /-- The string of ten spaces. -/
  | inuse
  deriving DecidableEq, Repr

/-- One chunk line: the arguments of `chunk %p size %10lu bytes`, the marker,
and the bytes passed to `fwrite` (`none` when `fwrite` is not called). -/
structure ChunkLine where
  addr : Nat
  size : Nat
  marker : Marker
  preview : Option (List Nat)
  deriving DecidableEq, Repr

/-- What follows `Pages in use for %p-%p: ` on the residency line. -/
inductive PagesBody where
  /-- The text printed by `%s`, and whether `" (incomplete)"` follows. -/
  | bits (text : List Nat) (incomplete : Bool)
  /-- The line `ERROR (%s)`, for the given `errno`. -/
  | error (errno : Nat)
  deriving DecidableEq, Repr

/-- One line appended to the output file. -/
inductive Line where
  /-- The line `Heap  %p size %10lu bytes:`. -/
  | heap (addr size : Nat)
  /-- The line `Pages in use for %p-%p: ...`. -/
  | pages (lo hi : Nat) (body : PagesBody)
  /-- The line `chunk %p size %10lu bytes ...`. -/
  | chunk (c : ChunkLine)
  deriving DecidableEq, Repr

/-- The chunk lines printed by a `while` loop within the given number of
iterations, and whether the loop has exited. -/
structure Walk where
  lines : List ChunkLine
  exited : Bool
  deriving DecidableEq, Repr

/-- The lines appended to the file by a call that is allowed a given number
of loop iterations, and whether the call has returned. -/
structure Run where
  out : List Line
  returned : Bool
  deriving DecidableEq, Repr

/-- The local array `char preview[16]` before it is written. -/
def preview_buffer (env : Env) : List Nat := (List.range 16).map env.stack

/-- The bytes that `fwrite(preview, 1, len, f)` writes for the chunk `p`, after
`len = generate_bindata_preview(preview, sizeof(preview), chunkdata(p),
chunksize(p))`.  Every address of the memory image is readable. -/
def chunk_preview (env : Env) (mem : Mem) (p : Nat) : List Nat :=
  match generate_bindata_preview (preview_buffer env) 16
      (fun i => some (load8 mem (chunkdata p + i))) (chunksize mem p) with
  | none => []
  | some (output, len) => output.take len

/-! ## `print_page_usages` (lines 90-115) -/

/-- The value of `sizeof(pagesInUse)`. -/
def sizeof_pagesInUse : Nat := 128 * 1024 + 1

/-- The array `pagesInUse` after a successful `mincore` that stored the bytes
`vec`: the other entries keep their indeterminate initial content. -/
def pagesInUse_after_mincore (env : Env) (vec : List Nat) : Nat → Nat :=
  fun i => match vec[i]? with
    | some b => b % 256
    | none => env.stack i % 256

/-- Assigning `buf[i] = v`. -/
def set_entry (buf : Nat → Nat) (i v : Nat) : Nat → Nat :=
  fun j => if j = i then v else buf j

/-- The `for` loop of `print_page_usages` (lines 102-104), with `n` iterations
left and loop counter `i`. -/
def pagesInUse_loop : Nat → Nat → (Nat → Nat) → (Nat → Nat)
  | 0, _, buf => buf
  | n + 1, i, buf => pagesInUse_loop n (i + 1) (set_entry buf i (if buf i ≠ 0 then 49 else 48))

/-- The characters that `%s` prints for the array `buf`, read from index `i`
up to the first NUL, within `n` entries. -/
def c_string (buf : Nat → Nat) : Nat → Nat → List Nat
  | 0, _ => []
  | n + 1, i => if buf i = 0 then [] else buf i :: c_string buf n (i + 1)

/-- The function `print_page_usages`: the residency line it prints. -/
def print_page_usages (env : Env) (addr len pageSize : Nat) : Line :=
  let baseAddr := addr &&& bitNot ((pageSize + WORD - 1) % WORD)
  let numPages := (len + pageSize + WORD - 1) % WORD / pageSize
  let measurableNumPages := MIN numPages (sizeof_pagesInUse - 1)
  let usableLen := measurableNumPages * pageSize % WORD
  match env.mincore baseAddr usableLen with
  | Except.ok vec =>
    let buf := pagesInUse_loop measurableNumPages 0 (pagesInUse_after_mincore env vec)
    let buf1 := set_entry buf (sizeof_pagesInUse - 1) 0
    Line.pages baseAddr ((baseAddr + usableLen) % WORD)
      (PagesBody.bits (c_string buf1 sizeof_pagesInUse 0)
        (decide (measurableNumPages < numPages)))
  | Except.error e =>
    Line.pages baseAddr ((baseAddr + usableLen) % WORD) (PagesBody.error e)

/-! ## `dump_non_main_heap` (lines 117-163) -/

/-- One iteration of the `while` loop of `dump_non_main_heap` at `p`: the line
it prints and the value assigned to `p` at its end. -/
def dump_non_main_heap_body (env : Env) (mem : Mem) (heap p : Nat) : ChunkLine × Nat :=
  let next := (p + chunksize mem p) % WORD
  if p = arena_top mem (heap_ar_ptr mem heap) then
    (⟨p, chunksize mem p, Marker.top, none⟩, NULL)
  else if mchunk_size mem p = PREV_INUSE then
    (⟨p, chunksize mem p, Marker.fence, none⟩, NULL)
  else if mchunk_size mem next &&& PREV_INUSE = 0 then
    (⟨p, chunksize mem p, Marker.free, none⟩, next)
  else
    (⟨p, chunksize mem p, Marker.inuse, some (chunk_preview env mem p)⟩, next)

/-- The `while (p != NULL)` loop of `dump_non_main_heap`, run for at most the
given number of iterations from `p`. -/
def dump_non_main_heap_loop (env : Env) (mem : Mem) (heap : Nat) : Nat → Nat → Walk
  | 0, p => ⟨[], p == NULL⟩
  | n + 1, p =>
    if p = NULL then ⟨[], true⟩
    else
      let step := dump_non_main_heap_body env mem heap p
      let rest := dump_non_main_heap_loop env mem heap n step.2
      ⟨step.1 :: rest.lines, rest.exited⟩

/-- The address of the first chunk walked by `dump_non_main_heap`
(lines 132-135). -/
def first_chunk (mem : Mem) (heap : Nat) : Nat :=
  let ptr :=
    if heap_ar_ptr mem heap ≠ (heap + sizeof_heap_info) % WORD then
      (heap + sizeof_heap_info) % WORD
    else (heap + sizeof_heap_info + sizeof_malloc_state) % WORD
  ((ptr + MALLOC_ALIGN_MASK) % WORD) &&& bitNot MALLOC_ALIGN_MASK

/-- The function `dump_non_main_heap`, its `while` loop allowed `fuel`
iterations.  When the file cannot be opened nothing is appended to it. -/
def dump_non_main_heap (env : Env) (mem : Mem) (fuel : Nat) (path : String)
    (heap : Nat) : Run :=
  if env.fopen path = false then ⟨[], true⟩
  else
    let w := dump_non_main_heap_loop env mem heap fuel (first_chunk mem heap)
    ⟨Line.heap heap (heap_size mem heap)
      :: print_page_usages env heap (heap_size mem heap) env.pageSize
      :: w.lines.map Line.chunk, w.exited⟩

/-! ## `dump_non_main_heaps` (lines 165-176) -/

/-- One iteration of the `while` loop of `dump_main_heap` at `p`: the line it
prints and the value assigned to `p` at its end. -/
def dump_main_heap_body (env : Env) (mem : Mem) (main_arena p : Nat) : ChunkLine × Nat :=
  let next := (p + chunksize mem p) % WORD
  if p = arena_top mem main_arena then
    (⟨p, chunksize mem p, Marker.top, none⟩, NULL)
  else if mchunk_size mem p = PREV_INUSE then
    (⟨p, chunksize mem p, Marker.fence, none⟩, NULL)
  else if mchunk_size mem next &&& PREV_INUSE = 0 then
    (⟨p, chunksize mem p, Marker.free, none⟩, next)
  else
    (⟨p, chunksize mem p, Marker.inuse, some (chunk_preview env mem p)⟩, next)

/-- The `while (p != NULL)` loop of `dump_main_heap`, run for at most the given
number of iterations from `p`. -/
def dump_main_heap_loop (env : Env) (mem : Mem) (main_arena : Nat) : Nat → Nat → Walk
  | 0, p => ⟨[], p == NULL⟩
  | n + 1, p =>
    if p = NULL then ⟨[], true⟩
    else
      let step := dump_main_heap_body env mem main_arena p
      let rest := dump_main_heap_loop env mem main_arena n step.2
      ⟨step.1 :: rest.lines, rest.exited⟩

/-- The pointer `base` of `dump_main_heap` (lines 189-190). -/
def main_heap_base (mem : Mem) (main_arena : Nat) : Nat :=
  (arena_top mem main_arena + chunksize mem (arena_top mem main_arena)
    + (WORD - arena_system_mem mem main_arena)) % WORD

/-- The function `dump_main_heap`, its `while` loop allowed `fuel` iterations.
When the file cannot be opened nothing is appended to it. -/
def dump_main_heap (env : Env) (mem : Mem) (fuel : Nat) (path : String)
    (main_arena : Nat) : Run :=
  if env.fopen path = false then ⟨[], true⟩
  else
    let base := main_heap_base mem main_arena
    let w := dump_main_heap_loop env mem main_arena fuel base
    ⟨Line.heap base (arena_system_mem mem main_arena)
      :: print_page_usages env base (arena_system_mem mem main_arena) env.pageSize
      :: w.lines.map Line.chunk, w.exited⟩

/-! ## Vocabulary for stating properties of the walks -/

/-- The chunk loop shared in form by both dump functions, for an arena whose
top chunk is at `top`: one iteration at `p`. -/
def walk_body (env : Env) (mem : Mem) (top p : Nat) : ChunkLine × Nat :=
  let next := (p + chunksize mem p) % WORD
  if p = top then
    (⟨p, chunksize mem p, Marker.top, none⟩, NULL)
  else if mchunk_size mem p = PREV_INUSE then
    (⟨p, chunksize mem p, Marker.fence, none⟩, NULL)
  else if mchunk_size mem next &&& PREV_INUSE = 0 then
    (⟨p, chunksize mem p, Marker.free, none⟩, next)
  else
    (⟨p, chunksize mem p, Marker.inuse, some (chunk_preview env mem p)⟩, next)

/-- The loop over `walk_body`, run for at most the given number of iterations. -/
def walk_loop (env : Env) (mem : Mem) (top : Nat) : Nat → Nat → Walk
  | 0, p => ⟨[], p == NULL⟩
  | n + 1, p =>
    if p = NULL then ⟨[], true⟩
    else
      let step := walk_body env mem top p
      let rest := walk_loop env mem top n step.2
      ⟨step.1 :: rest.lines, rest.exited⟩

/-- The chain of chunk addresses implied by the size fields:
`p(0) = p0`, `p(i+1) = p(i) + chunksize(p(i))`. -/
def chunk_chain (mem : Mem) (p0 : Nat) : Nat → Nat
  | 0 => p0
  | i + 1 => (chunk_chain mem p0 i + chunksize mem (chunk_chain mem p0 i)) % WORD

/-- The walk from `p0` does not stop within its first `k` iterations: each of
`p(0), ..., p(k-1)` is a non-null address, is not `top`, and has a raw size
field different from `PREV_INUSE`. -/
def WalksThrough (mem : Mem) (top p0 k : Nat) : Prop :=
  ∀ i, i < k → chunk_chain mem p0 i ≠ NULL ∧ chunk_chain mem p0 i ≠ top ∧
    mchunk_size mem (chunk_chain mem p0 i) ≠ PREV_INUSE

instance (mem : Mem) (top p0 k : Nat) : Decidable (WalksThrough mem top p0 k) := by
  unfold WalksThrough
  infer_instance

/-- The chain from `p0` reaches the arena's top chunk at `p(k)`, a non-null
address, and no earlier `p(i)` is null, is `top`, or has a raw size field equal
to `PREV_INUSE`. -/
def ReachesTop (mem : Mem) (top p0 k : Nat) : Prop :=
  WalksThrough mem top p0 k ∧ chunk_chain mem p0 k = top ∧ top ≠ NULL

instance (mem : Mem) (top p0 k : Nat) : Decidable (ReachesTop mem top p0 k) := by
  unfold ReachesTop
  infer_instance

/-- The segment stack of an arena, newest first: each segment's `prev` field
is the next segment of the list, none of them null, and the `prev` field of
the last one is `NULL`. -/
def SegmentStack (mem : Mem) : List Nat → Prop
  | [] => False
  | [h] => heap_prev mem h = NULL
  | h :: h1 :: rest => heap_prev mem h = h1 ∧ h1 ≠ NULL ∧ SegmentStack mem (h1 :: rest)

/-- The arena list from `ar_ptr` back to the main arena: the arenas of the
list, each different from the main arena and paired with its segment stack,
which starts at `heap_for_ptr` of the arena's top chunk; the `next` field of
each arena is the following arena, and that of the last one is the main
arena. -/
def ArenaList (mem : Mem) (main_arena : Nat) : Nat → List (Nat × List Nat) → Prop
  | ar_ptr, [] => ar_ptr = main_arena
  | ar_ptr, a :: rest =>
    ar_ptr = a.1 ∧ a.1 ≠ main_arena ∧
    a.2.head? = some (heap_for_ptr (arena_top mem a.1)) ∧
    SegmentStack mem a.2 ∧
    ArenaList mem main_arena (arena_next mem a.1) rest

/-- The segment addresses printed on the `Heap` header lines of an output. -/
def heap_lines (out : List Line) : List Nat :=
  out.filterMap (fun l => match l with
    | Line.heap addr _ => some addr
    | _ => none)

instance decidableSegmentStack (mem : Mem) : (l : List Nat) → Decidable (SegmentStack mem l)
  | [] => isFalse (fun h => h)
  | [h] => inferInstanceAs (Decidable (heap_prev mem h = NULL))
  | h :: h1 :: rest =>
    have := decidableSegmentStack mem (h1 :: rest)
    inferInstanceAs
      (Decidable (heap_prev mem h = h1 ∧ h1 ≠ NULL ∧ SegmentStack mem (h1 :: rest)))

instance decidableArenaList (mem : Mem) (main_arena : Nat) :
    (ar_ptr : Nat) → (l : List (Nat × List Nat)) → Decidable (ArenaList mem main_arena ar_ptr l)
  | ar_ptr, [] => inferInstanceAs (Decidable (ar_ptr = main_arena))
  | ar_ptr, a :: rest =>
    have := decidableArenaList mem main_arena (arena_next mem a.1) rest
    inferInstanceAs (Decidable (ar_ptr = a.1 ∧ a.1 ≠ main_arena ∧
      a.2.head? = some (heap_for_ptr (arena_top mem a.1)) ∧
      SegmentStack mem a.2 ∧
      ArenaList mem main_arena (arena_next mem a.1) rest))

/-- The memory image `mem` with only the `PREV_INUSE` bit of the size field of
the chunk at `B` changed: bit 0 of the byte at `B + SIZE_SZ` is inverted. -/
def flip_prev_inuse (mem : Mem) (B : Nat) : Mem :=
  fun x => if x = (B + SIZE_SZ) % WORD then mem x ^^^ 1 else mem x

/-- The line `l` is the `[free]` or in-use line of a chunk followed by `B`. -/
def FollowedBy (mem : Mem) (B : Nat) (l : ChunkLine) : Prop :=
  (l.marker = Marker.free ∨ l.marker = Marker.inuse) ∧
  (l.addr + chunksize mem l.addr) % WORD = B

/-- How the line `l1` printed after the change of the `PREV_INUSE` bit of `B`
relates to the line `l` printed before it at the same position: same address
and size; the classification is exchanged between `[free]` and in-use when `l`
is the free or in-use line of a chunk followed by `B`, and is the same
otherwise. -/
def LineAfterFlip (mem : Mem) (B : Nat) (l l1 : ChunkLine) : Prop :=
  l1.addr = l.addr ∧ l1.size = l.size ∧
  (FollowedBy mem B l →
    (l.marker = Marker.free ∧ l1.marker = Marker.inuse) ∨
    (l.marker = Marker.inuse ∧ l1.marker = Marker.free)) ∧
  (¬ FollowedBy mem B l → l1.marker = l.marker)

/-- The chunk lines among the lines of an output, in order. -/
def chunk_lines (out : List Line) : List ChunkLine :=
  out.filterMap (fun l => match l with
    | Line.chunk c => some c
    | _ => none)

/-! ## Memory images used in the examples -/

/-- The memory image in which every byte is zero. -/
def zero_mem : Mem := fun _ => 0

/-- The image `mem` after storing the 64-bit word `v` little-endian at `a`. -/
def store64 (mem : Mem) (a v : Nat) : Mem :=
  fun x => if a ≤ x ∧ x < a + 8 then v / 256 ^ (x - a) % 256 else mem x

/-- The image `mem` after storing the bytes `bs` from address `a` on. -/
def store_bytes (mem : Mem) (a : Nat) (bs : List Nat) : Mem :=
  fun x => if a ≤ x ∧ x < a + bs.length then bs.getD (x - a) 0 else mem x

/-- A main arena at `0x2000` whose top chunk `0x5000` has the raw size field
`PREV_INUSE` and is the base of the main heap (`system_mem = 0`), and a
non-main segment at `0x4000000` that embeds its arena and whose first chunk
`0x40008c0` is that arena's top, again with raw size field `PREV_INUSE`. -/
def top_first_mem : Mem :=
  store64 (store64 (store64 (store64 (store64 (store64 zero_mem
    0x2060 0x5000) 0x5008 1) 0x4000000 0x4000020) 0x4000010 0x21000)
    0x4000080 0x40008c0) 0x40008c8 1

/-- A main arena at `0x2000` with top `0x9000`, and a non-main segment at
`0x4000000` with top `0x4001000`; at `0x5000` and at `0x40008c0` an in-use
chunk of 32 bytes is followed by a chunk whose raw size field is `PREV_INUSE`,
itself followed by arbitrary bytes. -/
def fence_mem : Mem :=
  store64 (store64 (store64 (store64 (store64 (store64 (store64 (store64 (store64
    (store64 zero_mem
    0x2060 0x9000) 0x5008 0x21) 0x5028 1) 0x5030 0xdeadbeefdeadbeef)
    0x5038 0xffffffffffffffff) 0x4000000 0x4000020) 0x4000080 0x4001000)
    0x40008c8 0x25) 0x40008e8 1) 0x40008f8 0xffffffffffffffff

/-- A main arena at `0x2000` (`system_mem = 0x1000`) whose heap at `0x5000` is
an in-use chunk of 32 bytes holding `hello`, a free chunk of 48 bytes and the
top chunk `0x5050`; and a non-main segment at `0x4000000` that embeds its
arena, with the same three chunks from `0x40008c0` on (top `0x4000910`). -/
def hello_mem : Mem :=
  store_bytes (store_bytes
    (store64 (store64 (store64 (store64 (store64 (store64 (store64 (store64
      (store64 (store64 (store64 zero_mem
      0x2060 0x5050) 0x2888 0x1000) 0x5008 0x21) 0x5028 0x31) 0x5058 0xfb0)
      0x4000000 0x4000020) 0x4000010 0x21000) 0x4000080 0x4000910)
      0x40008c8 0x25) 0x40008e8 0x35) 0x4000918 0x206f4)
    0x5010 [104, 101, 108, 108, 111]) 0x40008d0 [104, 101, 108, 108, 111]

/-- A main arena at `0x2000` followed in the arena list by an arena `A` at
`0x4000020` and an arena `B` at `0xc000020`, each embedded in its oldest
segment (`0x4000000`, `0xc000000`, first chunk a fence) and owning a newer
segment (`0x8000000`, `0x10000000`) whose first chunk is the arena's top. -/
def arenas_mem : Mem :=
  store64 (store64 (store64 (store64 (store64 (store64 (store64 (store64 (store64
  (store64 (store64 (store64 (store64 (store64 (store64 (store64 (store64 (store64
  (store64 zero_mem
    0x2870 0x4000020)
    0x4000080 0x8000020) 0x4000890 0xc000020)
    0x8000000 0x4000020) 0x8000008 0x4000000) 0x8000010 0x21000) 0x8000028 0x20fe1)
    0x4000000 0x4000020) 0x4000010 0x21000) 0x40008c8 1)
    0xc000080 0x10000020) 0xc000890 0x2000)
    0x10000000 0xc000020) 0x10000008 0xc000000) 0x10000010 0x21000) 0x10000028 0x20fe1)
    0xc000000 0xc000020) 0xc000010 0x21000) 0xc0008c8 1

/-- A main arena at `0x2000` whose `top` field, at `0x2060`, is at the same
time the size field of the chunk `0x2058`, which is the top chunk itself; the
chunk `0x2038` of 32 bytes precedes it. -/
def alias_mem : Mem :=
  store64 (store64 zero_mem 0x2040 0x21) 0x2060 0x2058

/-- An environment in which the file opens, pages are 4096 bytes, `mincore`
reports every page resident, and local arrays start zeroed. -/
def example_env : Env where
  pageSize := 4096
  fopen := fun _ => true
  mincore := fun _ len => Except.ok (List.replicate ((len + 4095) / 4096) 1)
  stack := fun _ => 0

/-- A non-main segment at `0x4000000` whose arena has its top chunk in a newer
segment (`0x8000020`), as glibc leaves it: an in-use chunk of 32 bytes at
`0x40008c0`, the fencepost chunk of 16 bytes (`2 * SIZE_SZ | PREV_INUSE`) at
`0x40008e0`, and the fence (`prev_size` 16, size field `PREV_INUSE`) at
`0x40008f0`. -/
def fencepost_mem : Mem :=
  store64 (store64 (store64 (store64 (store64 (store64 (store64 zero_mem
    0x4000000 0x4000020) 0x4000010 0x21000) 0x4000080 0x8000020)
    0x40008c8 0x25) 0x40008e8 0x11) 0x40008f0 0x10) 0x40008f8 1

/-- A main arena at `0x2000` holding `0x1000` bytes that start at `0x5010` and
end at `0x6010`: an in-use chunk of 80 bytes at `0x5010` and the top chunk
`0x5060`. -/
def unaligned_end_mem : Mem :=
  store64 (store64 (store64 (store64 zero_mem
    0x2060 0x5060) 0x2888 0x1000) 0x5018 0x51) 0x5068 0xfb1

/-- A main arena at `0x2000` whose memory was obtained from a program break at
`0x5008`, as glibc sets it up: the top chunk, which is the only chunk, starts
at the aligned address `0x5010` and ends at `0x6000`, and `system_mem` counts
the `0xff8` bytes from `0x5008`. -/
def misaligned_base_mem : Mem :=
  store64 (store64 (store64 zero_mem
    0x2060 0x5010) 0x2888 0xff8) 0x5018 0xff1

/-- An environment like `example_env` in which `mincore` stores one byte, 1,
and the local arrays start with the byte `X` (88) at index 1. -/
def garbage_env : Env where
  pageSize := 4096
  fopen := fun _ => true
  mincore := fun _ _ => Except.ok [1]
  stack := fun i => if i = 1 then 88 else 0

/-- An environment like `example_env` in which `mincore` fails with `ENOMEM`
(12) and the local arrays start filled with the byte 7. -/
def failing_env : Env where
  pageSize := 4096
  fopen := fun _ => true
  mincore := fun _ _ => Except.error 12
  stack := fun _ => 7

theorem WORD_pos : 0 < WORD := by unfold WORD; positivity

theorem testBit_bitNot (x i : Nat) :
    (bitNot x).testBit i = (decide (i < 64) && !(x % WORD).testBit i) := by
  unfold bitNot
  have h : x % WORD < 2 ^ 64 := Nat.mod_lt _ WORD_pos
  have e : WORD - 1 - x % WORD = 2 ^ 64 - (x % WORD + 1) := by unfold WORD; omega
  rw [e, Nat.testBit_two_pow_sub_succ h]

/-- Masking with the complement of `2^k - 1` rounds down to a multiple of `2^k`. -/
theorem and_bitNot_low (t k : Nat) (hk : k ≤ 64) :
    t &&& bitNot (2 ^ k - 1) = t % WORD / 2 ^ k * 2 ^ k := by
  apply Nat.eq_of_testBit_eq
  intro i
  have hlt : 2 ^ k - 1 < WORD := by
    have h1 : 2 ^ k ≤ 2 ^ 64 := Nat.pow_le_pow_right (by norm_num) hk
    have h2 : 0 < 2 ^ k := by positivity
    unfold WORD; omega
  rw [Nat.testBit_and, testBit_bitNot, Nat.mod_eq_of_lt hlt, Nat.testBit_two_pow_sub_one]
  have e : t % WORD / 2 ^ k * 2 ^ k = (t % 2 ^ 64) >>> k <<< k := by
    rw [Nat.shiftLeft_eq, Nat.shiftRight_eq_div_pow]; rfl
  rw [e, Nat.testBit_shiftLeft, Nat.testBit_shiftRight, Nat.testBit_mod_two_pow]
  by_cases h3 : i < k
  · have h4 : i < 64 := by omega
    simp [h3, h4]
  · by_cases h64 : i < 64
    · have h5 : k + (i - k) = i := by omega
      simp [h3, h64, h5]
      intro _; omega
    · simp [h3, h64]
      intro _ h; omega

/-- Masking with a single bit extracts that binary digit. -/
theorem and_two_pow_digit (t i : Nat) : t &&& 2 ^ i = t / 2 ^ i % 2 * 2 ^ i := by
  apply Nat.eq_of_testBit_eq
  intro j
  have e : t / 2 ^ i % 2 * 2 ^ i = ((t >>> i) % 2 ^ 1) <<< i := by
    rw [Nat.shiftLeft_eq, Nat.shiftRight_eq_div_pow]; rfl
  rw [Nat.testBit_and, Nat.testBit_two_pow, e, Nat.testBit_shiftLeft,
    Nat.testBit_mod_two_pow, Nat.testBit_shiftRight]
  by_cases h : i = j
  · subst h; simp
  · by_cases h2 : i ≤ j
    · have h3 : ¬ (j - i < 1) := by omega
      simp [h, h3]
    · have h3 : ¬ (j ≥ i) := by omega
      simp [h, h3]

theorem chunksize_of_eq (t : Nat) : chunksize_of t = t % WORD / 8 * 8 := by
  have h := and_bitNot_low t 3 (by norm_num)
  simpa [chunksize_of, SIZE_BITS, PREV_INUSE, IS_MMAPPED, NON_MAIN_ARENA] using h

/-! ## C1: decoding the tagged size field -/

/-- C1: for every value `t` of a 64-bit tagged size field, `chunksize` yields
`t` with its three lowest bits cleared (`t - t % 8`, every bit from position 3
upwards kept, the bits 0, 1, 2 zero); the masks `PREV_INUSE`, `IS_MMAPPED`,
`NON_MAIN_ARENA` are 1, 2, 4 and select exactly the bits 0, 1, 2 of `t`; and
`t` is the sum of its size and its three tags, so nothing else is removed. -/
theorem chunksize_clears_exactly_tag_bits (t : Nat) (ht : t < WORD) :
    chunksize_of t = t &&& bitNot 7 ∧
    chunksize_of t = t - t % 8 ∧
    (∀ i, (chunksize_of t).testBit i = (decide (3 ≤ i) && t.testBit i)) ∧
    PREV_INUSE = 2 ^ 0 ∧ IS_MMAPPED = 2 ^ 1 ∧ NON_MAIN_ARENA = 2 ^ 2 ∧
    (t &&& PREV_INUSE ≠ 0 ↔ t.testBit 0 = true) ∧
    (t &&& IS_MMAPPED ≠ 0 ↔ t.testBit 1 = true) ∧
    (t &&& NON_MAIN_ARENA ≠ 0 ↔ t.testBit 2 = true) ∧
    t = chunksize_of t + (t &&& PREV_INUSE) + (t &&& IS_MMAPPED) + (t &&& NON_MAIN_ARENA) := by
  have hs := chunksize_of_eq t
  rw [Nat.mod_eq_of_lt ht] at hs
  have h0 : t &&& PREV_INUSE = t / 2 ^ 0 % 2 * 2 ^ 0 := and_two_pow_digit t 0
  have h1 : t &&& IS_MMAPPED = t / 2 ^ 1 % 2 * 2 ^ 1 := and_two_pow_digit t 1
  have h2 : t &&& NON_MAIN_ARENA = t / 2 ^ 2 % 2 * 2 ^ 2 := and_two_pow_digit t 2
  refine ⟨rfl, by omega, ?_, rfl, rfl, rfl, ?_, ?_, ?_, by omega⟩
  · intro i
    have e : t / 8 * 8 = t >>> 3 <<< 3 := by
      rw [Nat.shiftLeft_eq, Nat.shiftRight_eq_div_pow]
    rw [hs, e, Nat.testBit_shiftLeft, Nat.testBit_shiftRight]
    by_cases h3 : 3 ≤ i
    · have h5 : 3 + (i - 3) = i := by omega
      simp [h3, h5]
    · simp [h3]
  · rw [h0, Nat.testBit_to_div_mod]; simp
  · rw [h1, Nat.testBit_to_div_mod]; simp
  · rw [h2, Nat.testBit_to_div_mod]; simp

/-- C1 at the tagged size `0x25` (size 32, `PREV_INUSE` and `NON_MAIN_ARENA`). -/
theorem chunksize_clears_exactly_tag_bits_witness :
    (0x25 < WORD) ∧ chunksize_of 0x25 = 0x25 - 0x25 % 8 ∧ chunksize_of 0x25 = 32 :=
  ⟨by decide, (chunksize_clears_exactly_tag_bits 0x25 (by decide)).2.1, by decide⟩

/-! ## The preview loop -/

/-- The loop succeeds when every index it visits is inside both buffers; it
then stores the rendering of `input[j]` at each visited index `j` and leaves
every other entry of the output as it was. -/
theorem generate_bindata_preview_loop_spec (input : Nat → Option Nat) :
    ∀ (n i : Nat) (output : List Nat),
      (∀ j, i ≤ j → j < i + n → ∃ c, input j = some c) →
      i + n ≤ output.length →
      ∃ out, generate_bindata_preview_loop input n i output = some out ∧
        out.length = output.length ∧
        (∀ j, j < i ∨ i + n ≤ j → out[j]? = output[j]?) ∧
        (∀ j c, i ≤ j → j < i + n → input j = some c → out[j]? = some (preview_byte c)) := by
  intro n
  induction n with
  | zero =>
    intro i output _ _
    exact ⟨output, rfl, rfl, fun _ _ => rfl, fun j c h1 h2 _ => by omega⟩
  | succ n ih =>
    intro i output hin hout
    obtain ⟨c, hc⟩ := hin i (Nat.le_refl i) (by omega)
    have hi : i < output.length := by omega
    obtain ⟨out, h1, h2, h3, h4⟩ := ih (i + 1) (output.set i (preview_byte c))
      (fun j hj1 hj2 => hin j (by omega) (by omega)) (by simp; omega)
    refine ⟨out, ?_, ?_, ?_, ?_⟩
    · simp [generate_bindata_preview_loop, hc, store_byte, hi, h1]
    · simpa using h2
    · intro j hj
      rw [h3 j (by omega), List.getElem?_set]
      have : ¬ i = j := by omega
      simp [this]
    · intro j d hj1 hj2 hd
      by_cases hji : j = i
      · subst hji
        rw [hc] at hd
        cases hd
        rw [h3 j (by omega), List.getElem?_set]
        simp [hi]
      · exact h4 j d (by omega) (by omega) hd

/-- The loop reads `input` only at the indices it visits. -/
theorem generate_bindata_preview_loop_congr (input input1 : Nat → Option Nat) :
    ∀ (n i : Nat) (output : List Nat),
      (∀ j, i ≤ j → j < i + n → input j = input1 j) →
      generate_bindata_preview_loop input n i output
        = generate_bindata_preview_loop input1 n i output := by
  intro n
  induction n with
  | zero => intro i output _; rfl
  | succ n ih =>
    intro i output h
    simp only [generate_bindata_preview_loop]
    rw [h i (Nat.le_refl i) (by omega)]
    cases input1 i with
    | none => rfl
    | some c =>
      dsimp only
      cases store_byte output i (preview_byte c) with
      | none => rfl
      | some o =>
        dsimp only
        exact ih (i + 1) o (fun j h1 h2 => h j (by omega) (by omega))

theorem preview_len_eq_min (input_size output_size : Nat) :
    (if input_size < output_size then input_size else output_size)
      = min input_size output_size := by
  split <;> omega

/-- The whole function, when the first `min input_size output_size` indices
are inside both buffers. -/
theorem generate_bindata_preview_spec (output : List Nat) (output_size : Nat)
    (input : Nat → Option Nat) (input_size : Nat)
    (hin : ∀ j, j < min input_size output_size → ∃ c, input j = some c)
    (hout : min input_size output_size ≤ output.length) :
    ∃ out, generate_bindata_preview output output_size input input_size
        = some (out, min input_size output_size) ∧
      out.length = output.length ∧
      (∀ j, min input_size output_size ≤ j → out[j]? = output[j]?) ∧
      (∀ j c, j < min input_size output_size → input j = some c →
        out[j]? = some (preview_byte c)) := by
  obtain ⟨out, h1, h2, h3, h4⟩ := generate_bindata_preview_loop_spec input
    (min input_size output_size) 0 output
    (fun j _ hj => hin j (by omega)) (by omega)
  refine ⟨out, ?_, h2, fun j hj => h3 j (by omega), fun j c hj hc => h4 j c (by omega) (by omega) hc⟩
  simp only [generate_bindata_preview, preview_len_eq_min, h1]

/-! ## C7, C8, C9: the content previewer -/

/-- C7: `generate_bindata_preview` returns `min(input_size, output_size)` for
every `input_size` and `output_size`: whenever it returns, that is the value
returned, and it does return whenever the first `min(input_size, output_size)`
indices lie inside both buffers. -/
theorem generate_bindata_preview_returns_min (output : List Nat) (output_size : Nat)
    (input : Nat → Option Nat) (input_size : Nat)
    (hin : ∀ j, j < min input_size output_size → ∃ c, input j = some c)
    (hout : min input_size output_size ≤ output.length) :
    (∃ out, generate_bindata_preview output output_size input input_size
        = some (out, min input_size output_size)) ∧
    (∀ buf inp r, generate_bindata_preview buf output_size inp input_size = some r →
      r.2 = min input_size output_size) := by
  obtain ⟨out, h, _⟩ := generate_bindata_preview_spec output output_size input input_size hin hout
  refine ⟨⟨out, h⟩, ?_⟩
  intro buf inp r hr
  simp only [generate_bindata_preview, preview_len_eq_min] at hr
  cases hl : generate_bindata_preview_loop inp (min input_size output_size) 0 buf with
  | none => simp [hl] at hr
  | some o =>
    simp only [hl, Option.some.injEq] at hr
    rw [← hr]

/-- C7 on a 16-byte output buffer and an input declared `2^64 - 1` bytes long:
the returned length is 16. -/
theorem generate_bindata_preview_returns_min_witness :
    (∀ j, j < min (2 ^ 64 - 1) 16 → ∃ c, (fun _ => some 65 : Nat → Option Nat) j = some c) ∧
    min (2 ^ 64 - 1) 16 ≤ (List.replicate 16 0).length ∧
    ∃ out, generate_bindata_preview (List.replicate 16 0) 16 (fun _ => some 65) (2 ^ 64 - 1)
      = some (out, min (2 ^ 64 - 1) 16) :=
  ⟨fun _ _ => ⟨65, rfl⟩, by decide,
    (generate_bindata_preview_returns_min (List.replicate 16 0) 16 (fun _ => some 65)
      (2 ^ 64 - 1) (fun _ _ => ⟨65, rfl⟩) (by decide)).1⟩

/-- C8: for every index `i` below the returned length, `output[i]` is
`input[i]` when that byte is printable ASCII (0x20..0x7E), the character `0`
(code 48) when it is NUL, and `.` (code 46) for every other byte value,
0x80..0xFF included. -/
theorem generate_bindata_preview_renders (output : List Nat) (output_size : Nat)
    (input : Nat → Option Nat) (input_size : Nat)
    (hin : ∀ j, j < min input_size output_size → ∃ c, input j = some c)
    (hout : min input_size output_size ≤ output.length) :
    ∃ out len, generate_bindata_preview output output_size input input_size = some (out, len) ∧
      ∀ i c, i < len → input i = some c →
        out[i]? = some (if 0x20 ≤ c ∧ c ≤ 0x7E then c else if c = 0 then 48 else 46) := by
  obtain ⟨out, h, _, _, h4⟩ :=
    generate_bindata_preview_spec output output_size input input_size hin hout
  refine ⟨out, _, h, ?_⟩
  intro i c hi hc
  rw [h4 i c hi hc]
  simp [preview_byte, isprint]

/-- C8 on the input `{0x41, 0x00, 0x01}`: the first three output bytes are
`A`, `0`, `.`; a byte `0x80` is rendered as `.` as well. -/
theorem generate_bindata_preview_renders_witness :
    (∀ j, j < min 4 16 → ∃ c, (fun i => [0x41, 0x00, 0x01, 0x80][i]?) j = some c) ∧
    min 4 16 ≤ (List.replicate 16 0).length ∧
    (∃ out len, generate_bindata_preview (List.replicate 16 0) 16
        (fun i => [0x41, 0x00, 0x01, 0x80][i]?) 4 = some (out, len) ∧
      ∀ i c, i < len → (fun i => [0x41, 0x00, 0x01, 0x80][i]?) i = some c →
        out[i]? = some (if 0x20 ≤ c ∧ c ≤ 0x7E then c else if c = 0 then 48 else 46)) ∧
    generate_bindata_preview (List.replicate 16 0) 16
        (fun i => [0x41, 0x00, 0x01, 0x80][i]?) 4
      = some ([65, 48, 46, 46, 0, 0, 0, 0, 0, 0, 0, 0, 0, 0, 0, 0], 4) :=
  have hin : ∀ j, j < min 4 16 →
      ∃ c, (fun i => [0x41, 0x00, 0x01, 0x80][i]?) j = some c := by
    intro j hj
    have hj4 : j < 4 := by simpa using hj
    interval_cases j <;> exact ⟨_, rfl⟩
  ⟨hin, by decide,
    generate_bindata_preview_renders (List.replicate 16 0) 16
      (fun i => [0x41, 0x00, 0x01, 0x80][i]?) 4 hin (by decide),
    by decide⟩

/-- C9: with an input of at least `min(input_size, output_size)` bytes and an
output buffer of at least that many bytes (so in particular one of
`output_size` bytes) no access is out of bounds: the call returns; the output
keeps its length and every byte at or after the returned length; and any
input that agrees on the indices below `min(input_size, output_size)`,
whatever it holds or lacks beyond them, gives the identical result. -/
theorem generate_bindata_preview_in_bounds (output : List Nat) (output_size : Nat)
    (input : List Nat) (input_size : Nat)
    (hin : min input_size output_size ≤ input.length)
    (hout : min input_size output_size ≤ output.length) :
    ∃ out, generate_bindata_preview output output_size (fun i => input[i]?) input_size
        = some (out, min input_size output_size) ∧
      out.length = output.length ∧
      (∀ j, min input_size output_size ≤ j → out[j]? = output[j]?) ∧
      (∀ input1 : Nat → Option Nat,
        (∀ j, j < min input_size output_size → input1 j = input[j]?) →
        generate_bindata_preview output output_size input1 input_size
          = some (out, min input_size output_size)) := by
  obtain ⟨out, h1, h2, h3, _⟩ :=
    generate_bindata_preview_spec output output_size (fun i => input[i]?) input_size
      (fun j hj => ⟨input[j], by simp⟩) hout
  refine ⟨out, h1, h2, h3, ?_⟩
  intro input1 hagree
  rw [← h1]
  simp only [generate_bindata_preview, preview_len_eq_min]
  rw [generate_bindata_preview_loop_congr input1 (fun i => input[i]?)
    (min input_size output_size) 0 output (fun j _ hj => hagree j (by omega))]

/-- C9 on a 3-byte output buffer with `output_size = 3` and a 3-byte input
declared 5 bytes long: the call stays inside both buffers. -/
theorem generate_bindata_preview_in_bounds_witness :
    min 5 3 ≤ [104, 0, 200].length ∧ min 5 3 ≤ [7, 7, 7].length ∧
    ∃ out, generate_bindata_preview [7, 7, 7] 3 (fun i => [104, 0, 200][i]?) 5
        = some (out, min 5 3) ∧
      out.length = [7, 7, 7].length ∧
      (∀ j, min 5 3 ≤ j → out[j]? = [7, 7, 7][j]?) ∧
      (∀ input1 : Nat → Option Nat,
        (∀ j, j < min 5 3 → input1 j = [104, 0, 200][j]?) →
        generate_bindata_preview [7, 7, 7] 3 input1 5 = some (out, min 5 3)) :=
  ⟨by decide, by decide,
    generate_bindata_preview_in_bounds [7, 7, 7] 3 [104, 0, 200] 5 (by decide) (by decide)⟩

/-- The preview of a chunk is the rendering of the first
`min(chunksize(p), 16)` bytes at `chunkdata(p)`; the call never leaves its
buffers, whatever the initial content of the local array. -/
theorem chunk_preview_eq (env : Env) (mem : Mem) (p : Nat) :
    chunk_preview env mem p
      = (List.range (min (chunksize mem p) 16)).map
          (fun i => preview_byte (load8 mem (chunkdata p + i))) := by
  have hlen : (preview_buffer env).length = 16 := by simp [preview_buffer]
  obtain ⟨out, h1, h2, _, h4⟩ := generate_bindata_preview_spec (preview_buffer env) 16
    (fun i => some (load8 mem (chunkdata p + i))) (chunksize mem p)
    (fun j _ => ⟨_, rfl⟩) (by rw [hlen]; omega)
  unfold chunk_preview
  rw [h1]
  dsimp only
  apply List.ext_getElem?
  intro j
  by_cases hj : j < min (chunksize mem p) 16
  · rw [List.getElem?_take_of_lt hj, h4 j _ hj rfl]
    simp [hj]
  · rw [List.getElem?_eq_none (by simp; omega), List.getElem?_eq_none (by simp; omega)]

/-! ## The two chunk loops as instances of one walk -/

theorem dump_non_main_heap_body_eq_walk (env : Env) (mem : Mem) (heap p : Nat) :
    dump_non_main_heap_body env mem heap p
      = walk_body env mem (arena_top mem (heap_ar_ptr mem heap)) p := rfl

theorem dump_main_heap_body_eq_walk (env : Env) (mem : Mem) (main_arena p : Nat) :
    dump_main_heap_body env mem main_arena p
      = walk_body env mem (arena_top mem main_arena) p := rfl

theorem dump_non_main_heap_loop_eq_walk (env : Env) (mem : Mem) (heap : Nat) :
    ∀ n p, dump_non_main_heap_loop env mem heap n p
      = walk_loop env mem (arena_top mem (heap_ar_ptr mem heap)) n p := by
  intro n
  induction n with
  | zero => intro p; rfl
  | succ n ih =>
    intro p
    simp only [dump_non_main_heap_loop, walk_loop, dump_non_main_heap_body_eq_walk, ih]

theorem dump_main_heap_loop_eq_walk (env : Env) (mem : Mem) (main_arena : Nat) :
    ∀ n p, dump_main_heap_loop env mem main_arena n p
      = walk_loop env mem (arena_top mem main_arena) n p := by
  intro n
  induction n with
  | zero => intro p; rfl
  | succ n ih =>
    intro p
    simp only [dump_main_heap_loop, walk_loop, dump_main_heap_body_eq_walk, ih]

theorem walk_body_addr (env : Env) (mem : Mem) (top p : Nat) :
    (walk_body env mem top p).1.addr = p ∧
    (walk_body env mem top p).1.size = chunksize mem p := by
  unfold walk_body
  dsimp only
  split_ifs <;> exact ⟨rfl, rfl⟩

theorem walk_body_top (env : Env) (mem : Mem) (top p : Nat) (h : p = top) :
    walk_body env mem top p = (⟨p, chunksize mem p, Marker.top, none⟩, NULL) := by
  unfold walk_body
  simp [h]

theorem walk_body_fence (env : Env) (mem : Mem) (top p : Nat) (h : p ≠ top)
    (hs : mchunk_size mem p = PREV_INUSE) :
    walk_body env mem top p = (⟨p, chunksize mem p, Marker.fence, none⟩, NULL) := by
  unfold walk_body
  simp [h, hs]

theorem walk_body_next (env : Env) (mem : Mem) (top p : Nat) (h : p ≠ top)
    (hs : mchunk_size mem p ≠ PREV_INUSE) :
    (walk_body env mem top p).2 = (p + chunksize mem p) % WORD := by
  unfold walk_body
  dsimp only
  rw [if_neg h, if_neg hs]
  split_ifs <;> rfl

theorem walk_loop_succ (env : Env) (mem : Mem) (top n p : Nat) (hp : p ≠ NULL) :
    walk_loop env mem top (n + 1) p
      = ⟨(walk_body env mem top p).1 :: (walk_loop env mem top n (walk_body env mem top p).2).lines,
          (walk_loop env mem top n (walk_body env mem top p).2).exited⟩ := by
  simp only [walk_loop, if_neg hp]

theorem walk_loop_null (env : Env) (mem : Mem) (top n : Nat) :
    walk_loop env mem top n NULL = ⟨[], true⟩ := by
  cases n <;> simp [walk_loop]

/-- A walk that is at a stopping chunk prints that one line and exits. -/
theorem walk_loop_stop (env : Env) (mem : Mem) (top n p : Nat) (hp : p ≠ NULL)
    (h : (walk_body env mem top p).2 = NULL) :
    walk_loop env mem top (n + 1) p = ⟨[(walk_body env mem top p).1], true⟩ := by
  rw [walk_loop_succ env mem top n p hp, h, walk_loop_null]

/-- Every line a walk prints is the line of the loop body at the address the
line reports, and that address is not null. -/
theorem walk_loop_line_mem (env : Env) (mem : Mem) (top : Nat) :
    ∀ n p0 l, l ∈ (walk_loop env mem top n p0).lines →
      l = (walk_body env mem top l.addr).1 ∧ l.addr ≠ NULL := by
  intro n
  induction n with
  | zero => intro p0 l hl; simp [walk_loop] at hl
  | succ n ih =>
    intro p0 l hl
    by_cases hp : p0 = NULL
    · subst hp
      rw [walk_loop_null] at hl
      simp at hl
    · rw [walk_loop_succ env mem top n p0 hp] at hl
      simp only [List.mem_cons] at hl
      rcases hl with hl | hl
      · subst hl
        rw [(walk_body_addr env mem top p0).1]
        exact ⟨rfl, hp⟩
      · exact ih _ l hl

theorem chunk_chain_shift (mem : Mem) (p0 : Nat) :
    ∀ i, chunk_chain mem p0 (i + 1)
      = chunk_chain mem ((p0 + chunksize mem p0) % WORD) i := by
  intro i
  induction i with
  | zero => rfl
  | succ i ih =>
    show (chunk_chain mem p0 (i + 1) + chunksize mem (chunk_chain mem p0 (i + 1))) % WORD = _
    rw [ih]
    rfl

/-- A walk that does not stop within `k` iterations prints the `k` lines of
the chain `p(0), ..., p(k-1)` and goes on from `p(k)`. -/
theorem walk_loop_chain (env : Env) (mem : Mem) (top : Nat) :
    ∀ k p0 n, WalksThrough mem top p0 k →
      walk_loop env mem top (k + n) p0
        = ⟨(List.range k).map (fun i => (walk_body env mem top (chunk_chain mem p0 i)).1)
            ++ (walk_loop env mem top n (chunk_chain mem p0 k)).lines,
           (walk_loop env mem top n (chunk_chain mem p0 k)).exited⟩ := by
  intro k
  induction k with
  | zero => intro p0 n _; simp [chunk_chain]
  | succ k ih =>
    intro p0 n h
    obtain ⟨h0, h1, h2⟩ := h 0 (by omega)
    have hrest : WalksThrough mem top ((p0 + chunksize mem p0) % WORD) k := by
      intro i hi
      have := h (i + 1) (by omega)
      rwa [chunk_chain_shift] at this
    have e : k + 1 + n = (k + n) + 1 := by omega
    rw [e, walk_loop_succ env mem top (k + n) p0 h0, walk_body_next env mem top p0 h1 h2,
      ih _ n hrest, List.range_succ_eq_map]
    have hmap : (List.range k).map
        ((fun i => (walk_body env mem top (chunk_chain mem p0 i)).1) ∘ Nat.succ)
        = (List.range k).map (fun i =>
            (walk_body env mem top (chunk_chain mem ((p0 + chunksize mem p0) % WORD) i)).1) := by
      apply List.map_congr_left
      intro i _
      simp only [Function.comp, Nat.succ_eq_add_one, chunk_chain_shift]
    simp only [List.map_cons, List.map_map, List.cons_append, chunk_chain_shift, hmap]
    rfl

theorem walk_body_classify (env : Env) (mem : Mem) (top p : Nat) (h1 : p ≠ top)
    (h2 : mchunk_size mem p ≠ PREV_INUSE) :
    ((mchunk_size mem ((p + chunksize mem p) % WORD)).testBit 0 = false ∧
      (walk_body env mem top p).1 = ⟨p, chunksize mem p, Marker.free, none⟩) ∨
    ((mchunk_size mem ((p + chunksize mem p) % WORD)).testBit 0 = true ∧
      (walk_body env mem top p).1
        = ⟨p, chunksize mem p, Marker.inuse, some (chunk_preview env mem p)⟩) := by
  unfold walk_body
  dsimp only
  rw [if_neg h1, if_neg h2]
  by_cases h3 : mchunk_size mem ((p + chunksize mem p) % WORD) &&& PREV_INUSE = 0
  · left
    rw [if_pos h3]
    refine ⟨?_, rfl⟩
    rw [PREV_INUSE, Nat.and_one_is_mod] at h3
    simp [Nat.testBit_zero, h3]
  · right
    rw [if_neg h3]
    refine ⟨?_, rfl⟩
    rw [PREV_INUSE, Nat.and_one_is_mod] at h3
    simp only [Nat.testBit_zero, decide_eq_true_eq]
    omega

theorem walk_body_preview_iff (env : Env) (mem : Mem) (top p : Nat) :
    (walk_body env mem top p).1.preview.isSome = true
      ↔ (walk_body env mem top p).1.marker = Marker.inuse := by
  unfold walk_body
  dsimp only
  split_ifs <;> simp

/-! ## C2: a walk that starts at the top chunk -/

/-- C2: if the first chunk of a walk is the arena's top chunk (a non-null
address), the loop of `dump_non_main_heap` and the loop of `dump_main_heap`
each print exactly one chunk line, classified `(top)`, and exit, for every
memory image: whatever the raw size field of the chunk is (`PREV_INUSE`
included) and whatever follows it.  The whole dump is then the header line,
the residency line and that one chunk line. -/
theorem top_chunk_first_gives_single_top_line (env : Env) (mem : Mem) (fuel : Nat)
    (path : String) :
    (∀ heap p, p ≠ NULL → p = arena_top mem (heap_ar_ptr mem heap) →
      dump_non_main_heap_loop env mem heap (fuel + 1) p
        = ⟨[⟨p, chunksize mem p, Marker.top, none⟩], true⟩) ∧
    (∀ main_arena p, p ≠ NULL → p = arena_top mem main_arena →
      dump_main_heap_loop env mem main_arena (fuel + 1) p
        = ⟨[⟨p, chunksize mem p, Marker.top, none⟩], true⟩) ∧
    (∀ heap, env.fopen path = true → first_chunk mem heap ≠ NULL →
      first_chunk mem heap = arena_top mem (heap_ar_ptr mem heap) →
      dump_non_main_heap env mem (fuel + 1) path heap
        = ⟨[Line.heap heap (heap_size mem heap),
            print_page_usages env heap (heap_size mem heap) env.pageSize,
            Line.chunk ⟨first_chunk mem heap, chunksize mem (first_chunk mem heap),
              Marker.top, none⟩], true⟩) ∧
    (∀ main_arena, env.fopen path = true → main_heap_base mem main_arena ≠ NULL →
      main_heap_base mem main_arena = arena_top mem main_arena →
      dump_main_heap env mem (fuel + 1) path main_arena
        = ⟨[Line.heap (main_heap_base mem main_arena) (arena_system_mem mem main_arena),
            print_page_usages env (main_heap_base mem main_arena)
              (arena_system_mem mem main_arena) env.pageSize,
            Line.chunk ⟨main_heap_base mem main_arena,
              chunksize mem (main_heap_base mem main_arena), Marker.top, none⟩], true⟩) := by
  have key : ∀ top p, p ≠ NULL → p = top →
      walk_loop env mem top (fuel + 1) p = ⟨[⟨p, chunksize mem p, Marker.top, none⟩], true⟩ := by
    intro top p hp ht
    rw [walk_loop_stop env mem top fuel p hp (by rw [walk_body_top env mem top p ht]),
      walk_body_top env mem top p ht]
  refine ⟨?_, ?_, ?_, ?_⟩
  · intro heap p hp ht
    rw [dump_non_main_heap_loop_eq_walk]
    exact key _ p hp ht
  · intro main_arena p hp ht
    rw [dump_main_heap_loop_eq_walk]
    exact key _ p hp ht
  · intro heap hf hp ht
    simp only [dump_non_main_heap, hf, dump_non_main_heap_loop_eq_walk,
      key _ _ hp ht]
    simp
  · intro main_arena hf hp ht
    simp only [dump_main_heap, hf, dump_main_heap_loop_eq_walk, key _ _ hp ht]
    simp

/-- C2 on `top_first_mem`: both dumps start at a top chunk whose raw size field
is `PREV_INUSE`, and print one `(top)` line, not a `(fence)` line. -/
theorem top_chunk_first_gives_single_top_line_witness :
    (example_env.fopen "dump.txt" = true ∧
      first_chunk top_first_mem 0x4000000 ≠ NULL ∧
      first_chunk top_first_mem 0x4000000
        = arena_top top_first_mem (heap_ar_ptr top_first_mem 0x4000000) ∧
      mchunk_size top_first_mem (first_chunk top_first_mem 0x4000000) = PREV_INUSE ∧
      main_heap_base top_first_mem 0x2000 ≠ NULL ∧
      main_heap_base top_first_mem 0x2000 = arena_top top_first_mem 0x2000 ∧
      mchunk_size top_first_mem (main_heap_base top_first_mem 0x2000) = PREV_INUSE) ∧
    dump_non_main_heap example_env top_first_mem 1 "dump.txt" 0x4000000
      = ⟨[Line.heap 0x4000000 (heap_size top_first_mem 0x4000000),
          print_page_usages example_env 0x4000000 (heap_size top_first_mem 0x4000000)
            example_env.pageSize,
          Line.chunk ⟨first_chunk top_first_mem 0x4000000,
            chunksize top_first_mem (first_chunk top_first_mem 0x4000000),
            Marker.top, none⟩], true⟩ ∧
    dump_main_heap example_env top_first_mem 1 "dump.txt" 0x2000
      = ⟨[Line.heap (main_heap_base top_first_mem 0x2000)
            (arena_system_mem top_first_mem 0x2000),
          print_page_usages example_env (main_heap_base top_first_mem 0x2000)
            (arena_system_mem top_first_mem 0x2000) example_env.pageSize,
          Line.chunk ⟨main_heap_base top_first_mem 0x2000,
            chunksize top_first_mem (main_heap_base top_first_mem 0x2000),
            Marker.top, none⟩], true⟩ :=
  ⟨by decide,
    (top_chunk_first_gives_single_top_line example_env top_first_mem 0 "dump.txt").2.2.1
      0x4000000 (by decide) (by decide) (by decide),
    (top_chunk_first_gives_single_top_line example_env top_first_mem 0 "dump.txt").2.2.2
      0x2000 (by decide) (by decide) (by decide)⟩

/-! ## C3: the fence -/

/-- C3: when the walk from `p0` reaches, after `k` iterations that do not stop,
a non-null chunk `p(k)` that is not the arena's top and whose raw size field
is exactly `PREV_INUSE`, it prints a `(fence)` line for that chunk (size 0)
and exits: with any larger number of allowed iterations the output ends with
that line.  This holds for every memory image, so for all bytes that follow
the chunk. -/
theorem fence_chunk_ends_walk (env : Env) (mem : Mem) (fuel p0 k : Nat) :
    (∀ heap, WalksThrough mem (arena_top mem (heap_ar_ptr mem heap)) p0 k →
      chunk_chain mem p0 k ≠ NULL →
      chunk_chain mem p0 k ≠ arena_top mem (heap_ar_ptr mem heap) →
      mchunk_size mem (chunk_chain mem p0 k) = PREV_INUSE →
      dump_non_main_heap_loop env mem heap (k + (fuel + 1)) p0
        = ⟨(List.range k).map
              (fun i => (dump_non_main_heap_body env mem heap (chunk_chain mem p0 i)).1)
            ++ [⟨chunk_chain mem p0 k, 0, Marker.fence, none⟩], true⟩) ∧
    (∀ main_arena, WalksThrough mem (arena_top mem main_arena) p0 k →
      chunk_chain mem p0 k ≠ NULL →
      chunk_chain mem p0 k ≠ arena_top mem main_arena →
      mchunk_size mem (chunk_chain mem p0 k) = PREV_INUSE →
      dump_main_heap_loop env mem main_arena (k + (fuel + 1)) p0
        = ⟨(List.range k).map
              (fun i => (dump_main_heap_body env mem main_arena (chunk_chain mem p0 i)).1)
            ++ [⟨chunk_chain mem p0 k, 0, Marker.fence, none⟩], true⟩) := by
  have key : ∀ top, WalksThrough mem top p0 k → chunk_chain mem p0 k ≠ NULL →
      chunk_chain mem p0 k ≠ top → mchunk_size mem (chunk_chain mem p0 k) = PREV_INUSE →
      walk_loop env mem top (k + (fuel + 1)) p0
        = ⟨(List.range k).map (fun i => (walk_body env mem top (chunk_chain mem p0 i)).1)
            ++ [⟨chunk_chain mem p0 k, 0, Marker.fence, none⟩], true⟩ := by
    intro top hw hn ht hs
    have hb := walk_body_fence env mem top _ ht hs
    have hz : chunksize mem (chunk_chain mem p0 k) = 0 := by
      unfold chunksize
      rw [hs]
      decide
    rw [hz] at hb
    rw [walk_loop_chain env mem top k p0 (fuel + 1) hw,
      walk_loop_stop env mem top fuel _ hn (by rw [hb]), hb]
  constructor
  · intro heap hw hn ht hs
    rw [dump_non_main_heap_loop_eq_walk]
    exact key _ hw hn ht hs
  · intro main_arena hw hn ht hs
    rw [dump_main_heap_loop_eq_walk]
    exact key _ hw hn ht hs

/-- C3 on `fence_mem`: in both walks an in-use chunk is followed by a fence,
after which the memory holds arbitrary bytes; the walk prints the in-use line
and the `(fence)` line and exits. -/
theorem fence_chunk_ends_walk_witness :
    (WalksThrough fence_mem (arena_top fence_mem (heap_ar_ptr fence_mem 0x4000000))
        0x40008c0 1 ∧
      chunk_chain fence_mem 0x40008c0 1 ≠ NULL ∧
      chunk_chain fence_mem 0x40008c0 1
        ≠ arena_top fence_mem (heap_ar_ptr fence_mem 0x4000000) ∧
      mchunk_size fence_mem (chunk_chain fence_mem 0x40008c0 1) = PREV_INUSE) ∧
    dump_non_main_heap_loop example_env fence_mem 0x4000000 (1 + (7 + 1)) 0x40008c0
      = ⟨(List.range 1).map (fun i => (dump_non_main_heap_body example_env fence_mem
            0x4000000 (chunk_chain fence_mem 0x40008c0 i)).1)
          ++ [⟨chunk_chain fence_mem 0x40008c0 1, 0, Marker.fence, none⟩], true⟩ ∧
    dump_main_heap_loop example_env fence_mem 0x2000 (1 + (7 + 1)) 0x5000
      = ⟨(List.range 1).map (fun i => (dump_main_heap_body example_env fence_mem
            0x2000 (chunk_chain fence_mem 0x5000 i)).1)
          ++ [⟨chunk_chain fence_mem 0x5000 1, 0, Marker.fence, none⟩], true⟩ ∧
    (dump_main_heap_loop example_env fence_mem 0x2000 9 0x5000).lines.map
        (fun l => (l.addr, l.marker))
      = [(0x5000, Marker.inuse), (0x5020, Marker.fence)] :=
  ⟨by decide,
    (fence_chunk_ends_walk example_env fence_mem 7 0x40008c0 1).1 0x4000000
      (by decide) (by decide) (by decide) (by decide),
    (fence_chunk_ends_walk example_env fence_mem 7 0x5000 1).2 0x2000
      (by decide) (by decide) (by decide) (by decide),
    by decide⟩

/-! ## C4: free or in use -/

/-- A walk that goes through `p(i)` prints, as its line `i`, the line of the
loop body at `p(i)`. -/
theorem walk_loop_visited_line (env : Env) (mem : Mem) (top p0 i n : Nat)
    (hw : WalksThrough mem top p0 (i + 1)) (hn : i < n) :
    (walk_loop env mem top n p0).lines[i]?
      = some (walk_body env mem top (chunk_chain mem p0 i)).1 := by
  have e : n = (i + 1) + (n - (i + 1)) := by omega
  rw [e, walk_loop_chain env mem top (i + 1) p0 _ hw]
  dsimp only
  rw [List.getElem?_append_left (by simp)]
  simp

/-- The line that a walk prints for a visited chunk that is neither top nor
fence. -/
theorem walk_loop_visited_classified (env : Env) (mem : Mem) (top p0 i n : Nat)
    (hw : WalksThrough mem top p0 (i + 1)) (hn : i < n) :
    ∃ l, (walk_loop env mem top n p0).lines[i]? = some l ∧
      l.addr = chunk_chain mem p0 i ∧
      l.size = chunksize mem (chunk_chain mem p0 i) ∧
      (l.marker = Marker.free
        ↔ (mchunk_size mem (chunk_chain mem p0 (i + 1))).testBit 0 = false) ∧
      (((mchunk_size mem (chunk_chain mem p0 (i + 1))).testBit 0 = false ∧
          l = ⟨chunk_chain mem p0 i, chunksize mem (chunk_chain mem p0 i),
            Marker.free, none⟩) ∨
        ((mchunk_size mem (chunk_chain mem p0 (i + 1))).testBit 0 = true ∧
          l = ⟨chunk_chain mem p0 i, chunksize mem (chunk_chain mem p0 i),
            Marker.inuse, some (chunk_preview env mem (chunk_chain mem p0 i))⟩)) := by
  obtain ⟨_, h1, h2⟩ := hw i (by omega)
  have hnext : chunk_chain mem p0 (i + 1)
      = (chunk_chain mem p0 i + chunksize mem (chunk_chain mem p0 i)) % WORD := rfl
  refine ⟨_, walk_loop_visited_line env mem top p0 i n hw hn,
    (walk_body_addr env mem top _).1, (walk_body_addr env mem top _).2, ?_, ?_⟩
  · rw [hnext]
    rcases walk_body_classify env mem top _ h1 h2 with ⟨hb, hl⟩ | ⟨hb, hl⟩
    · rw [hl]
      simp [hb]
    · rw [hl]
      simp [hb]
  · rw [hnext]
    exact walk_body_classify env mem top _ h1 h2

/-- C4: let `A` be a chunk visited by either walk that is neither the arena's
top nor a fence, and `B` the chunk at `A + chunksize(A)`.  The walk prints a
line for `A`: if `A = p(i)` in the chain from the start of the walk and the
walk is allowed more than `i` iterations, line `i` of its output reports the
address `A` and the size `chunksize(A)`, and it is the `[free]` line without
preview when bit 0 (`PREV_INUSE`) of `B`'s size field is 0, and the in-use
line with the preview of `A` when that bit is 1; so `A` is reported free if
and only if the bit is 0.  The same holds of every line of the output whose
chunk is neither top nor fence, and among all lines of a walk exactly the
in-use lines carry a preview. -/
theorem free_iff_next_prev_inuse_clear (env : Env) (mem : Mem) (n p0 : Nat) :
    (∀ heap l, l ∈ (dump_non_main_heap_loop env mem heap n p0).lines →
      (l.addr ≠ arena_top mem (heap_ar_ptr mem heap) →
        mchunk_size mem l.addr ≠ PREV_INUSE →
        (l.marker = Marker.free
          ↔ (mchunk_size mem ((l.addr + chunksize mem l.addr) % WORD)).testBit 0 = false) ∧
        (((mchunk_size mem ((l.addr + chunksize mem l.addr) % WORD)).testBit 0 = false ∧
            l = ⟨l.addr, chunksize mem l.addr, Marker.free, none⟩) ∨
          ((mchunk_size mem ((l.addr + chunksize mem l.addr) % WORD)).testBit 0 = true ∧
            l = ⟨l.addr, chunksize mem l.addr, Marker.inuse,
              some (chunk_preview env mem l.addr)⟩))) ∧
      (l.preview.isSome = true ↔ l.marker = Marker.inuse)) ∧
    (∀ main_arena l, l ∈ (dump_main_heap_loop env mem main_arena n p0).lines →
      (l.addr ≠ arena_top mem main_arena →
        mchunk_size mem l.addr ≠ PREV_INUSE →
        (l.marker = Marker.free
          ↔ (mchunk_size mem ((l.addr + chunksize mem l.addr) % WORD)).testBit 0 = false) ∧
        (((mchunk_size mem ((l.addr + chunksize mem l.addr) % WORD)).testBit 0 = false ∧
            l = ⟨l.addr, chunksize mem l.addr, Marker.free, none⟩) ∨
          ((mchunk_size mem ((l.addr + chunksize mem l.addr) % WORD)).testBit 0 = true ∧
            l = ⟨l.addr, chunksize mem l.addr, Marker.inuse,
              some (chunk_preview env mem l.addr)⟩))) ∧
      (l.preview.isSome = true ↔ l.marker = Marker.inuse)) ∧
    (∀ heap i, WalksThrough mem (arena_top mem (heap_ar_ptr mem heap)) p0 (i + 1) → i < n →
      ∃ l, (dump_non_main_heap_loop env mem heap n p0).lines[i]? = some l ∧
        l.addr = chunk_chain mem p0 i ∧
        l.size = chunksize mem (chunk_chain mem p0 i) ∧
        (l.marker = Marker.free
          ↔ (mchunk_size mem (chunk_chain mem p0 (i + 1))).testBit 0 = false) ∧
        (((mchunk_size mem (chunk_chain mem p0 (i + 1))).testBit 0 = false ∧
            l = ⟨chunk_chain mem p0 i, chunksize mem (chunk_chain mem p0 i),
              Marker.free, none⟩) ∨
          ((mchunk_size mem (chunk_chain mem p0 (i + 1))).testBit 0 = true ∧
            l = ⟨chunk_chain mem p0 i, chunksize mem (chunk_chain mem p0 i),
              Marker.inuse, some (chunk_preview env mem (chunk_chain mem p0 i))⟩))) ∧
    (∀ main_arena i, WalksThrough mem (arena_top mem main_arena) p0 (i + 1) → i < n →
      ∃ l, (dump_main_heap_loop env mem main_arena n p0).lines[i]? = some l ∧
        l.addr = chunk_chain mem p0 i ∧
        l.size = chunksize mem (chunk_chain mem p0 i) ∧
        (l.marker = Marker.free
          ↔ (mchunk_size mem (chunk_chain mem p0 (i + 1))).testBit 0 = false) ∧
        (((mchunk_size mem (chunk_chain mem p0 (i + 1))).testBit 0 = false ∧
            l = ⟨chunk_chain mem p0 i, chunksize mem (chunk_chain mem p0 i),
              Marker.free, none⟩) ∨
          ((mchunk_size mem (chunk_chain mem p0 (i + 1))).testBit 0 = true ∧
            l = ⟨chunk_chain mem p0 i, chunksize mem (chunk_chain mem p0 i),
              Marker.inuse, some (chunk_preview env mem (chunk_chain mem p0 i))⟩))) := by
  have key : ∀ top l, l ∈ (walk_loop env mem top n p0).lines →
      (l.addr ≠ top → mchunk_size mem l.addr ≠ PREV_INUSE →
        (l.marker = Marker.free
          ↔ (mchunk_size mem ((l.addr + chunksize mem l.addr) % WORD)).testBit 0 = false) ∧
        (((mchunk_size mem ((l.addr + chunksize mem l.addr) % WORD)).testBit 0 = false ∧
            l = ⟨l.addr, chunksize mem l.addr, Marker.free, none⟩) ∨
          ((mchunk_size mem ((l.addr + chunksize mem l.addr) % WORD)).testBit 0 = true ∧
            l = ⟨l.addr, chunksize mem l.addr, Marker.inuse,
              some (chunk_preview env mem l.addr)⟩))) ∧
      (l.preview.isSome = true ↔ l.marker = Marker.inuse) := by
    intro top l hl
    obtain ⟨hbody, _⟩ := walk_loop_line_mem env mem top n p0 l hl
    refine ⟨?_, ?_⟩
    · intro h1 h2
      rcases walk_body_classify env mem top l.addr h1 h2 with ⟨hb, hc⟩ | ⟨hb, hc⟩
      · rw [← hbody] at hc
        refine ⟨?_, Or.inl ⟨hb, hc⟩⟩
        rw [hc]
        simp [hb]
      · rw [← hbody] at hc
        refine ⟨?_, Or.inr ⟨hb, hc⟩⟩
        rw [hc]
        simp [hb]
    · rw [hbody]
      exact walk_body_preview_iff env mem top l.addr
  refine ⟨?_, ?_, ?_, ?_⟩
  · intro heap l hl
    rw [dump_non_main_heap_loop_eq_walk] at hl
    exact key _ l hl
  · intro main_arena l hl
    rw [dump_main_heap_loop_eq_walk] at hl
    exact key _ l hl
  · intro heap i hw hn
    rw [dump_non_main_heap_loop_eq_walk]
    exact walk_loop_visited_classified env mem _ p0 i n hw hn
  · intro main_arena i hw hn
    rw [dump_main_heap_loop_eq_walk]
    exact walk_loop_visited_classified env mem _ p0 i n hw hn

/-- C4 on `hello_mem`, for both walks: the first chunk (`0x40008c0`, resp.
`0x5000`) is followed by a chunk whose `PREV_INUSE` bit is 1, and line 0 is
its in-use line with the preview `hello` and eleven `0`; the second chunk is
followed by the top chunk, whose bit is 0, and line 1 is its `[free]` line. -/
theorem free_iff_next_prev_inuse_clear_witness :
    (WalksThrough hello_mem (arena_top hello_mem (heap_ar_ptr hello_mem 0x4000000))
        0x40008c0 (1 + 1) ∧ 1 < 3 ∧
      WalksThrough hello_mem (arena_top hello_mem 0x2000) 0x5000 (1 + 1) ∧
      (mchunk_size hello_mem (chunk_chain hello_mem 0x40008c0 (0 + 1))).testBit 0 = true ∧
      (mchunk_size hello_mem (chunk_chain hello_mem 0x40008c0 (1 + 1))).testBit 0 = false ∧
      (mchunk_size hello_mem (chunk_chain hello_mem 0x5000 (0 + 1))).testBit 0 = true ∧
      (mchunk_size hello_mem (chunk_chain hello_mem 0x5000 (1 + 1))).testBit 0 = false) ∧
    (∃ l, (dump_non_main_heap_loop example_env hello_mem 0x4000000 3 0x40008c0).lines[1]?
        = some l ∧
      l.addr = chunk_chain hello_mem 0x40008c0 1 ∧
      l.size = chunksize hello_mem (chunk_chain hello_mem 0x40008c0 1) ∧
      (l.marker = Marker.free
        ↔ (mchunk_size hello_mem (chunk_chain hello_mem 0x40008c0 (1 + 1))).testBit 0
            = false)) ∧
    (∃ l, (dump_main_heap_loop example_env hello_mem 0x2000 3 0x5000).lines[1]? = some l ∧
      l.addr = chunk_chain hello_mem 0x5000 1 ∧
      l.size = chunksize hello_mem (chunk_chain hello_mem 0x5000 1) ∧
      (l.marker = Marker.free
        ↔ (mchunk_size hello_mem (chunk_chain hello_mem 0x5000 (1 + 1))).testBit 0
            = false)) ∧
    (dump_non_main_heap_loop example_env hello_mem 0x4000000 3 0x40008c0).lines
      = [⟨0x40008c0, 32, Marker.inuse,
            some [104, 101, 108, 108, 111, 48, 48, 48, 48, 48, 48, 48, 48, 48, 48, 48]⟩,
          ⟨0x40008e0, 48, Marker.free, none⟩,
          ⟨0x4000910, 0x206f0, Marker.top, none⟩] ∧
    (dump_main_heap_loop example_env hello_mem 0x2000 3 0x5000).lines
      = [⟨0x5000, 32, Marker.inuse,
            some [104, 101, 108, 108, 111, 48, 48, 48, 48, 48, 48, 48, 48, 48, 48, 48]⟩,
          ⟨0x5020, 48, Marker.free, none⟩,
          ⟨0x5050, 0xfb0, Marker.top, none⟩] ∧
    ((Marker.inuse = Marker.free
        ↔ (mchunk_size hello_mem ((0x5000 + chunksize hello_mem 0x5000) % WORD)).testBit 0
            = false)) :=
  ⟨by decide,
    ((free_iff_next_prev_inuse_clear example_env hello_mem 3 0x40008c0).2.2.1 0x4000000 1
      (by decide) (by decide)).elim
      (fun l h => ⟨l, h.1, h.2.1, h.2.2.1, h.2.2.2.1⟩),
    ((free_iff_next_prev_inuse_clear example_env hello_mem 3 0x5000).2.2.2 0x2000 1
      (by decide) (by decide)).elim
      (fun l h => ⟨l, h.1, h.2.1, h.2.2.1, h.2.2.2.1⟩),
    by decide, by decide,
    (((free_iff_next_prev_inuse_clear example_env hello_mem 3 0x5000).2.1 0x2000
      ⟨0x5000, 32, Marker.inuse,
        some [104, 101, 108, 108, 111, 48, 48, 48, 48, 48, 48, 48, 48, 48, 48, 48]⟩
      (by decide)).1 (by decide) (by decide)).1⟩

/-! ## Walks that reach the top chunk -/

theorem walk_body_marker_top_iff (env : Env) (mem : Mem) (top p : Nat) :
    (walk_body env mem top p).1.marker = Marker.top ↔ p = top := by
  unfold walk_body
  dsimp only
  split_ifs with h1 h2 h3 <;> simp [h1]

/-- A walk whose chain reaches the top chunk at `p(k)` prints the lines of
`p(0), ..., p(k-1)` and the `(top)` line, and exits, as soon as it is allowed
more than `k` iterations. -/
theorem walk_loop_reaches_top (env : Env) (mem : Mem) (top p0 k fuel : Nat)
    (h : ReachesTop mem top p0 k) (hf : k < fuel) :
    walk_loop env mem top fuel p0
      = ⟨(List.range k).map (fun i => (walk_body env mem top (chunk_chain mem p0 i)).1)
          ++ [⟨top, chunksize mem top, Marker.top, none⟩], true⟩ := by
  obtain ⟨hw, hk, hn⟩ := h
  have e : fuel = k + ((fuel - k - 1) + 1) := by omega
  have hb := walk_body_top env mem top (chunk_chain mem p0 k) hk
  rw [e, walk_loop_chain env mem top k p0 _ hw,
    walk_loop_stop env mem top _ _ (by rw [hk]; exact hn) (by rw [hb]), hb, hk]

/-- The lines of a walk that reaches the top chunk at `p(k)`: there are `k + 1`
of them, line `i` reports `p(i)` and `chunksize(p(i))`, and only the last one
is marked `(top)`. -/
theorem reaches_top_lines (env : Env) (mem : Mem) (top p0 k : Nat)
    (h : ReachesTop mem top p0 k) (lines : List ChunkLine)
    (hl : lines = (List.range k).map
        (fun i => (walk_body env mem top (chunk_chain mem p0 i)).1)
      ++ [⟨top, chunksize mem top, Marker.top, none⟩]) :
    lines.length = k + 1 ∧
    ∀ i, i ≤ k → ∃ l, lines[i]? = some l ∧ l.addr = chunk_chain mem p0 i ∧
      l.size = chunksize mem (chunk_chain mem p0 i) ∧ (l.marker = Marker.top ↔ i = k) := by
  obtain ⟨hw, hk, hn⟩ := h
  subst hl
  refine ⟨by simp, ?_⟩
  intro i hi
  by_cases hik : i = k
  · subst hik
    refine ⟨⟨top, chunksize mem top, Marker.top, none⟩, ?_, hk.symm, by rw [hk], by simp⟩
    rw [List.getElem?_append_right (by simp)]
    simp
  · have hlt : i < k := by omega
    refine ⟨(walk_body env mem top (chunk_chain mem p0 i)).1, ?_,
      (walk_body_addr env mem top _).1, (walk_body_addr env mem top _).2, ?_⟩
    · rw [List.getElem?_append_left (by simpa using hlt)]
      simp [hlt]
    · rw [walk_body_marker_top_iff]
      constructor
      · intro ht; exact absurd ht (hw i hlt).2.1
      · intro h; exact absurd h hik

theorem chunk_chain_add (mem : Mem) (p0 i : Nat) :
    ∀ j, chunk_chain mem p0 (i + j) = chunk_chain mem (chunk_chain mem p0 i) j := by
  intro j
  induction j with
  | zero => rfl
  | succ j ih =>
    show (chunk_chain mem p0 (i + j) + chunksize mem (chunk_chain mem p0 (i + j))) % WORD = _
    rw [ih]
    rfl

theorem chunk_chain_lt (mem : Mem) (p0 : Nat) (h0 : p0 < WORD) :
    ∀ i, chunk_chain mem p0 i < WORD := by
  intro i
  cases i with
  | zero => exact h0
  | succ i => exact Nat.mod_lt _ WORD_pos

/-- A chunk whose size component is zero is its own successor. -/
theorem chunk_chain_stuck (mem : Mem) (q : Nat) (hq : q < WORD) (hz : chunksize mem q = 0) :
    ∀ j, chunk_chain mem q j = q := by
  intro j
  induction j with
  | zero => rfl
  | succ j ih =>
    show (chunk_chain mem q j + chunksize mem (chunk_chain mem q j)) % WORD = q
    rw [ih, hz, Nat.add_zero, Nat.mod_eq_of_lt hq]

/-- On the way to the top chunk every chunk has a non-zero size, so each step
moves to a higher address unless the addition wraps. -/
theorem reaches_top_increasing (mem : Mem) (top p0 k : Nat) (h0 : p0 < WORD)
    (h : ReachesTop mem top p0 k) :
    ∀ i, i < k → chunksize mem (chunk_chain mem p0 i) ≠ 0 ∧
      (chunk_chain mem p0 i + chunksize mem (chunk_chain mem p0 i) < WORD →
        chunk_chain mem p0 i < chunk_chain mem p0 (i + 1)) := by
  obtain ⟨hw, hk, _⟩ := h
  intro i hi
  have hne : chunksize mem (chunk_chain mem p0 i) ≠ 0 := by
    intro hz
    have e : k = i + (k - i) := by omega
    have hstuck := chunk_chain_stuck mem _ (chunk_chain_lt mem p0 h0 i) hz (k - i)
    rw [← chunk_chain_add, ← e, hk] at hstuck
    exact (hw i hi).2.1 hstuck.symm
  refine ⟨hne, ?_⟩
  intro hlt
  show _ < (chunk_chain mem p0 i + chunksize mem (chunk_chain mem p0 i)) % WORD
  rw [Nat.mod_eq_of_lt hlt]
  omega

theorem main_heap_base_lt (mem : Mem) (main_arena : Nat) :
    main_heap_base mem main_arena < WORD :=
  Nat.mod_lt _ WORD_pos

theorem first_chunk_lt (mem : Mem) (heap : Nat) : first_chunk mem heap < WORD := by
  unfold first_chunk
  exact Nat.lt_of_le_of_lt Nat.and_le_right (by decide)

theorem dump_main_heap_eq_walk (env : Env) (mem : Mem) (fuel : Nat) (path : String)
    (main_arena : Nat) (hf : env.fopen path = true) :
    dump_main_heap env mem fuel path main_arena
      = ⟨Line.heap (main_heap_base mem main_arena) (arena_system_mem mem main_arena)
          :: print_page_usages env (main_heap_base mem main_arena)
              (arena_system_mem mem main_arena) env.pageSize
          :: (walk_loop env mem (arena_top mem main_arena) fuel
              (main_heap_base mem main_arena)).lines.map Line.chunk,
         (walk_loop env mem (arena_top mem main_arena) fuel
              (main_heap_base mem main_arena)).exited⟩ := by
  simp only [dump_main_heap, hf, dump_main_heap_loop_eq_walk]
  simp

theorem dump_non_main_heap_eq_walk (env : Env) (mem : Mem) (fuel : Nat) (path : String)
    (heap : Nat) (hf : env.fopen path = true) :
    dump_non_main_heap env mem fuel path heap
      = ⟨Line.heap heap (heap_size mem heap)
          :: print_page_usages env heap (heap_size mem heap) env.pageSize
          :: (walk_loop env mem (arena_top mem (heap_ar_ptr mem heap)) fuel
              (first_chunk mem heap)).lines.map Line.chunk,
         (walk_loop env mem (arena_top mem (heap_ar_ptr mem heap)) fuel
              (first_chunk mem heap)).exited⟩ := by
  simp only [dump_non_main_heap, hf, dump_non_main_heap_loop_eq_walk]
  simp

/-! ## C6: the lines of a walk that reaches the top chunk -/

/-- C6: if the chain `p(i+1) = p(i) + chunksize(p(i))` from the first chunk of
a segment reaches the arena's top chunk at `p(k)`, with no earlier `p(i)`
being top or having a raw size field equal to `PREV_INUSE` (all `p(i)` being
non-null addresses), then `dump_main_heap` and `dump_non_main_heap` return as
soon as their loop is allowed more than `k` iterations, and print the header
line, the residency line and exactly `k + 1` chunk lines: line `i` reports the
address `p(i)` and the size `chunksize(p(i))`, and the last line, and only it,
is marked `(top)`.  The lines are in memory order: every chunk before the top
has a non-zero size, so `p(i) < p(i+1)` unless the addition wraps at `2^64`. -/
theorem walk_to_top_prints_chain (env : Env) (mem : Mem) (path : String) (fuel k : Nat)
    (hfuel : k < fuel) :
    (∀ main_arena, env.fopen path = true →
      ReachesTop mem (arena_top mem main_arena) (main_heap_base mem main_arena) k →
      ∃ lines : List ChunkLine,
        dump_main_heap env mem fuel path main_arena
          = ⟨Line.heap (main_heap_base mem main_arena) (arena_system_mem mem main_arena)
              :: print_page_usages env (main_heap_base mem main_arena)
                  (arena_system_mem mem main_arena) env.pageSize
              :: lines.map Line.chunk, true⟩ ∧
        (dump_main_heap env mem fuel path main_arena).out.length = 2 + (k + 1) ∧
        lines.length = k + 1 ∧
        (∀ i, i ≤ k → ∃ l, lines[i]? = some l ∧
          l.addr = chunk_chain mem (main_heap_base mem main_arena) i ∧
          l.size = chunksize mem (chunk_chain mem (main_heap_base mem main_arena) i) ∧
          (l.marker = Marker.top ↔ i = k)) ∧
        (∀ i, i < k →
          chunksize mem (chunk_chain mem (main_heap_base mem main_arena) i) ≠ 0 ∧
          (chunk_chain mem (main_heap_base mem main_arena) i
              + chunksize mem (chunk_chain mem (main_heap_base mem main_arena) i) < WORD →
            chunk_chain mem (main_heap_base mem main_arena) i
              < chunk_chain mem (main_heap_base mem main_arena) (i + 1)))) ∧
    (∀ heap, env.fopen path = true →
      ReachesTop mem (arena_top mem (heap_ar_ptr mem heap)) (first_chunk mem heap) k →
      ∃ lines : List ChunkLine,
        dump_non_main_heap env mem fuel path heap
          = ⟨Line.heap heap (heap_size mem heap)
              :: print_page_usages env heap (heap_size mem heap) env.pageSize
              :: lines.map Line.chunk, true⟩ ∧
        (dump_non_main_heap env mem fuel path heap).out.length = 2 + (k + 1) ∧
        lines.length = k + 1 ∧
        (∀ i, i ≤ k → ∃ l, lines[i]? = some l ∧
          l.addr = chunk_chain mem (first_chunk mem heap) i ∧
          l.size = chunksize mem (chunk_chain mem (first_chunk mem heap) i) ∧
          (l.marker = Marker.top ↔ i = k)) ∧
        (∀ i, i < k →
          chunksize mem (chunk_chain mem (first_chunk mem heap) i) ≠ 0 ∧
          (chunk_chain mem (first_chunk mem heap) i
              + chunksize mem (chunk_chain mem (first_chunk mem heap) i) < WORD →
            chunk_chain mem (first_chunk mem heap) i
              < chunk_chain mem (first_chunk mem heap) (i + 1)))) := by
  constructor
  · intro main_arena hf hr
    have hw := walk_loop_reaches_top env mem _ _ k fuel hr hfuel
    obtain ⟨hlen, hlines⟩ := reaches_top_lines env mem _ _ k hr _ rfl
    have hd := dump_main_heap_eq_walk env mem fuel path main_arena hf
    rw [hw] at hd
    refine ⟨_, hd, ?_, hlen, hlines,
      reaches_top_increasing mem _ _ k (main_heap_base_lt mem main_arena) hr⟩
    rw [hd]
    simp only [List.length_cons, List.length_map, hlen]
    omega
  · intro heap hf hr
    have hw := walk_loop_reaches_top env mem _ _ k fuel hr hfuel
    obtain ⟨hlen, hlines⟩ := reaches_top_lines env mem _ _ k hr _ rfl
    have hd := dump_non_main_heap_eq_walk env mem fuel path heap hf
    rw [hw] at hd
    refine ⟨_, hd, ?_, hlen, hlines,
      reaches_top_increasing mem _ _ k (first_chunk_lt mem heap) hr⟩
    rw [hd]
    simp only [List.length_cons, List.length_map, hlen]
    omega

/-- C6 on `hello_mem`: the segment [in-use 32 bytes `hello`], [free 48 bytes],
[top] is dumped as 5 lines by `dump_main_heap` and by `dump_non_main_heap`,
and the in-use line carries `hello`. -/
theorem walk_to_top_prints_chain_witness :
    ((2 : Nat) < 3 ∧ example_env.fopen "dump.txt" = true ∧
      ReachesTop hello_mem (arena_top hello_mem 0x2000) (main_heap_base hello_mem 0x2000) 2 ∧
      ReachesTop hello_mem (arena_top hello_mem (heap_ar_ptr hello_mem 0x4000000))
        (first_chunk hello_mem 0x4000000) 2) ∧
    (dump_main_heap example_env hello_mem 3 "dump.txt" 0x2000).out.length = 2 + (2 + 1) ∧
    (dump_non_main_heap example_env hello_mem 3 "dump.txt" 0x4000000).out.length
      = 2 + (2 + 1) ∧
    dump_main_heap example_env hello_mem 3 "dump.txt" 0x2000
      = ⟨[Line.heap 0x5000 0x1000,
          Line.pages 0x5000 0x6000 (PagesBody.bits [49] false),
          Line.chunk ⟨0x5000, 32, Marker.inuse,
            some [104, 101, 108, 108, 111, 48, 48, 48, 48, 48, 48, 48, 48, 48, 48, 48]⟩,
          Line.chunk ⟨0x5020, 48, Marker.free, none⟩,
          Line.chunk ⟨0x5050, 0xfb0, Marker.top, none⟩], true⟩ :=
  ⟨by decide,
    ((walk_to_top_prints_chain example_env hello_mem "dump.txt" 3 2
      (by decide)).1 0x2000 (by decide) (by decide)).elim (fun _ h => h.2.1),
    ((walk_to_top_prints_chain example_env hello_mem "dump.txt" 3 2
      (by decide)).2 0x4000000 (by decide) (by decide)).elim (fun _ h => h.2.1),
    by decide⟩

/-! ## The loops over arenas and segments -/

/-- Once a walk has exited, allowing more iterations changes nothing. -/
theorem walk_loop_mono (env : Env) (mem : Mem) (top : Nat) :
    ∀ n p, (walk_loop env mem top n p).exited = true →
      ∀ m, n ≤ m → walk_loop env mem top m p = walk_loop env mem top n p := by
  intro n
  induction n with
  | zero =>
    intro p h m _
    have hp : p = NULL := by simpa [walk_loop] using h
    subst hp
    rw [walk_loop_null, walk_loop_null]
  | succ n ih =>
    intro p h m hm
    by_cases hp : p = NULL
    · subst hp
      rw [walk_loop_null, walk_loop_null]
    · obtain ⟨m1, rfl⟩ : ∃ m1, m = m1 + 1 := ⟨m - 1, by omega⟩
      rw [walk_loop_succ env mem top n p hp] at h
      rw [walk_loop_succ env mem top n p hp, walk_loop_succ env mem top m1 p hp,
        ih _ h m1 (by omega)]

theorem heap_lines_flatMap (f : Nat → List Line) (hf : ∀ h, heap_lines (f h) = [h]) :
    ∀ l : List Nat, heap_lines (l.flatMap f) = l := by
  intro l
  induction l with
  | nil => rfl
  | cons h t ih =>
    rw [List.flatMap_cons]
    unfold heap_lines at *
    rw [List.filterMap_append, hf h, ih]
    rfl

theorem xor_one_eq (v : Nat) : v ^^^ 1 = if v % 2 = 0 then v + 1 else v - 1 := by
  have h1 : (v ^^^ 1) / 2 = v / 2 := by
    rw [Nat.xor_div_two]; simp
  have h2 := @Nat.xor_mod_two_eq_one v 1
  have h3 := Nat.div_add_mod (v ^^^ 1) 2
  have h4 := Nat.div_add_mod v 2
  have h5 : (v ^^^ 1) % 2 < 2 := Nat.mod_lt _ (by norm_num)
  split
  · have : (v ^^^ 1) % 2 = 1 := by rw [h2]; omega
    omega
  · have : ¬ (v ^^^ 1) % 2 = 1 := by rw [h2]; omega
    omega

theorem load8_lt (mem : Mem) (a : Nat) : load8 mem a < 256 :=
  Nat.mod_lt _ (by norm_num)

theorem load64_lt (mem : Mem) (a : Nat) : load64 mem a < WORD := by
  have h0 := load8_lt mem a
  have h1 := load8_lt mem (a + 1)
  have h2 := load8_lt mem (a + 2)
  have h3 := load8_lt mem (a + 3)
  have h4 := load8_lt mem (a + 4)
  have h5 := load8_lt mem (a + 5)
  have h6 := load8_lt mem (a + 6)
  have h7 := load8_lt mem (a + 7)
  unfold load64 WORD
  omega

theorem load8_flip (mem : Mem) (B a : Nat) :
    load8 (flip_prev_inuse mem B) a
      = if a % WORD = (B + SIZE_SZ) % WORD then
          (if load8 mem a % 2 = 0 then load8 mem a + 1 else load8 mem a - 1)
        else load8 mem a := by
  unfold load8 flip_prev_inuse
  by_cases h : a % WORD = (B + SIZE_SZ) % WORD
  · rw [if_pos h, if_pos h, xor_one_eq]
    split <;> split <;> omega
  · rw [if_neg h, if_neg h]

theorem mchunk_size_flip_self (mem : Mem) (B : Nat) :
    mchunk_size (flip_prev_inuse mem B) B
      = if mchunk_size mem B % 2 = 0 then mchunk_size mem B + 1 else mchunk_size mem B - 1 := by
  have hk : ∀ j, 0 < j → j < 8 → (B + SIZE_SZ + j) % WORD ≠ (B + SIZE_SZ) % WORD := by
    intro j h1 h2
    unfold WORD
    omega
  unfold mchunk_size load64
  rw [load8_flip, load8_flip, load8_flip, load8_flip, load8_flip, load8_flip, load8_flip,
    load8_flip, if_pos rfl, if_neg (hk 1 (by omega) (by omega)),
    if_neg (hk 2 (by omega) (by omega)), if_neg (hk 3 (by omega) (by omega)),
    if_neg (hk 4 (by omega) (by omega)), if_neg (hk 5 (by omega) (by omega)),
    if_neg (hk 6 (by omega) (by omega)), if_neg (hk 7 (by omega) (by omega))]
  split <;> split <;> omega

theorem mchunk_size_flip_other (mem : Mem) (B q : Nat) (h8 : q % 8 = B % 8)
    (hne : q % WORD ≠ B % WORD) :
    mchunk_size (flip_prev_inuse mem B) q = mchunk_size mem q := by
  have hk : ∀ j, j < 8 → (q + SIZE_SZ + j) % WORD ≠ (B + SIZE_SZ) % WORD := by
    intro j h2
    unfold WORD SIZE_SZ at *
    omega
  have h0 : (q + SIZE_SZ) % WORD ≠ (B + SIZE_SZ) % WORD := hk 0 (by omega)
  unfold mchunk_size load64
  rw [load8_flip, load8_flip, load8_flip, load8_flip, load8_flip, load8_flip, load8_flip,
    load8_flip, if_neg h0, if_neg (hk 1 (by omega)),
    if_neg (hk 2 (by omega)), if_neg (hk 3 (by omega)),
    if_neg (hk 4 (by omega)), if_neg (hk 5 (by omega)),
    if_neg (hk 6 (by omega)), if_neg (hk 7 (by omega))]

theorem mchunk_size_lt (mem : Mem) (q : Nat) : mchunk_size mem q < WORD :=
  load64_lt mem _

theorem chunksize_eq_div (mem : Mem) (q : Nat) :
    chunksize mem q = mchunk_size mem q / 8 * 8 := by
  unfold chunksize
  rw [chunksize_of_eq, Nat.mod_eq_of_lt (mchunk_size_lt mem q)]

theorem chunksize_flip (mem : Mem) (B q : Nat) (hq : q < WORD) (hB : B < WORD)
    (h8 : q % 8 = B % 8) :
    chunksize (flip_prev_inuse mem B) q = chunksize mem q := by
  rw [chunksize_eq_div, chunksize_eq_div]
  by_cases h : q = B
  · subst h
    rw [mchunk_size_flip_self]
    split <;> omega
  · rw [mchunk_size_flip_other mem B q h8
      (by rw [Nat.mod_eq_of_lt hq, Nat.mod_eq_of_lt hB]; exact h)]

theorem next_aligned (mem : Mem) (B q : Nat) (h8 : q % 8 = B % 8) :
    (q + chunksize mem q) % WORD % 8 = B % 8 ∧ (q + chunksize mem q) % WORD < WORD := by
  refine ⟨?_, Nat.mod_lt _ WORD_pos⟩
  rw [chunksize_eq_div]
  unfold WORD
  omega

theorem walk_body_snd (env : Env) (mem : Mem) (top q : Nat) :
    (walk_body env mem top q).2 = NULL ∨
    (walk_body env mem top q).2 = (q + chunksize mem q) % WORD := by
  unfold walk_body
  dsimp only
  split_ifs <;> simp

/-- One iteration before and after the change of the `PREV_INUSE` bit of `B`. -/
theorem walk_body_flip (env : Env) (mem : Mem) (top B q : Nat) (hq : q < WORD)
    (hB : B < WORD) (h8 : q % 8 = B % 8) (hok : B = top ∨ chunksize mem B ≠ 0) :
    (walk_body env (flip_prev_inuse mem B) top q).2 = (walk_body env mem top q).2 ∧
    LineAfterFlip mem B (walk_body env mem top q).1
      (walk_body env (flip_prev_inuse mem B) top q).1 := by
  have hcs := chunksize_flip mem B q hq hB h8
  obtain ⟨hn8, hnlt⟩ := next_aligned mem B q h8
  by_cases ht : q = top
  · rw [walk_body_top env mem top q ht, walk_body_top env _ top q ht, hcs]
    refine ⟨rfl, rfl, rfl, ?_, fun _ => rfl⟩
    rintro ⟨h | h, _⟩ <;> simp at h
  · have hfence : mchunk_size (flip_prev_inuse mem B) q = PREV_INUSE
        ↔ mchunk_size mem q = PREV_INUSE := by
      by_cases h : q = B
      · subst h
        have hz : chunksize mem q ≠ 0 := by
          rcases hok with h | h
          · exact absurd h ht
          · exact h
        rw [chunksize_eq_div] at hz
        rw [mchunk_size_flip_self]
        unfold PREV_INUSE
        split <;> omega
      · rw [mchunk_size_flip_other mem B q h8
          (by rw [Nat.mod_eq_of_lt hq, Nat.mod_eq_of_lt hB]; exact h)]
    by_cases hf : mchunk_size mem q = PREV_INUSE
    · rw [walk_body_fence env mem top q ht hf,
        walk_body_fence env _ top q ht (hfence.mpr hf), hcs]
      refine ⟨rfl, rfl, rfl, ?_, fun _ => rfl⟩
      rintro ⟨h | h, _⟩ <;> simp at h
    · have hf1 : mchunk_size (flip_prev_inuse mem B) q ≠ PREV_INUSE :=
        fun h => hf (hfence.mp h)
      rw [walk_body_next env mem top q ht hf, walk_body_next env _ top q ht hf1, hcs]
      refine ⟨rfl, ?_⟩
      have ha := walk_body_addr env mem top q
      have ha1 := walk_body_addr env (flip_prev_inuse mem B) top q
      refine ⟨by rw [ha.1, ha1.1], by rw [ha.2, ha1.2, hcs], ?_⟩
      have hc := walk_body_classify env mem top q ht hf
      have hc1 := walk_body_classify env (flip_prev_inuse mem B) top q ht hf1
      rw [hcs] at hc1
      simp only [Nat.testBit_zero, decide_eq_true_eq, decide_eq_false_iff_not] at hc hc1
      unfold FollowedBy
      rw [ha.1]
      by_cases hnb : (q + chunksize mem q) % WORD = B
      · rw [hnb] at hc hc1
        rw [mchunk_size_flip_self] at hc1
        rcases hc with ⟨hb, hl⟩ | ⟨hb, hl⟩
        · rcases hc1 with ⟨hb1, hl1⟩ | ⟨hb1, hl1⟩
          · exfalso
            split at hb1 <;> omega
          · rw [hl, hl1]
            simp [hnb]
        · rcases hc1 with ⟨hb1, hl1⟩ | ⟨hb1, hl1⟩
          · rw [hl, hl1]
            simp [hnb]
          · exfalso
            split at hb1 <;> omega
      · rw [mchunk_size_flip_other mem B _ hn8
          (by rw [Nat.mod_mod, Nat.mod_eq_of_lt hB]; exact hnb)] at hc1
        rcases hc with ⟨hb, hl⟩ | ⟨hb, hl⟩
        · rcases hc1 with ⟨hb1, hl1⟩ | ⟨hb1, hl1⟩
          · rw [hl, hl1]
            simp [hnb]
          · exact absurd hb1 hb
        · rcases hc1 with ⟨hb1, hl1⟩ | ⟨hb1, hl1⟩
          · exact absurd hb hb1
          · rw [hl, hl1]
            simp [hnb]

theorem chunk_chain_aligned (mem : Mem) (p0 : Nat) :
    ∀ i, chunk_chain mem p0 i % 8 = p0 % 8 := by
  intro i
  induction i with
  | zero => rfl
  | succ i ih =>
    show (chunk_chain mem p0 i + chunksize mem (chunk_chain mem p0 i)) % WORD % 8 = p0 % 8
    rw [chunksize_eq_div]
    unfold WORD
    omega

/-- The two walks, before and after the change of the `PREV_INUSE` bit of `B`,
exit alike and print lines related position by position. -/
theorem walk_loop_flip (env : Env) (mem : Mem) (top B : Nat) (hB : B < WORD)
    (hok : B = top ∨ chunksize mem B ≠ 0) :
    ∀ n q, q < WORD → q % 8 = B % 8 →
      (walk_loop env (flip_prev_inuse mem B) top n q).exited
        = (walk_loop env mem top n q).exited ∧
      List.Forall₂ (LineAfterFlip mem B) (walk_loop env mem top n q).lines
        (walk_loop env (flip_prev_inuse mem B) top n q).lines := by
  intro n
  induction n with
  | zero => intro q _ _; simp [walk_loop]
  | succ n ih =>
    intro q hq h8
    by_cases hp : q = NULL
    · subst hp
      rw [walk_loop_null, walk_loop_null]
      simp
    · obtain ⟨hnext, hline⟩ := walk_body_flip env mem top B q hq hB h8 hok
      rw [walk_loop_succ env mem top n q hp, walk_loop_succ env _ top n q hp, hnext]
      dsimp only
      rcases walk_body_snd env mem top q with h | h
      · rw [h, walk_loop_null, walk_loop_null]
        exact ⟨rfl, List.Forall₂.cons hline List.Forall₂.nil⟩
      · obtain ⟨h8n, hltn⟩ := next_aligned mem B q h8
        rw [h]
        obtain ⟨ih1, ih2⟩ := ih _ hltn h8n
        exact ⟨ih1, List.Forall₂.cons hline ih2⟩

theorem walk_body_continues (env : Env) (mem : Mem) (top q : Nat)
    (h : (walk_body env mem top q).1.marker = Marker.free ∨
      (walk_body env mem top q).1.marker = Marker.inuse) :
    (walk_body env mem top q).2 = (q + chunksize mem q) % WORD := by
  unfold walk_body at h ⊢
  dsimp only at h ⊢
  split_ifs at h ⊢ <;> simp at h ⊢

/-- A walk that has printed a `[free]` or in-use line at position `m` goes on
from the successor of that line's chunk with the iterations it has left. -/
theorem walk_loop_split (env : Env) (mem : Mem) (top : Nat) :
    ∀ n p0 m l, (walk_loop env mem top n p0).lines[m]? = some l →
      (l.marker = Marker.free ∨ l.marker = Marker.inuse) →
      (walk_loop env mem top n p0).lines.length
        = (m + 1) + (walk_loop env mem top (n - (m + 1))
            ((l.addr + chunksize mem l.addr) % WORD)).lines.length ∧
      (∀ j, (walk_loop env mem top n p0).lines[m + 1 + j]?
        = (walk_loop env mem top (n - (m + 1))
            ((l.addr + chunksize mem l.addr) % WORD)).lines[j]?) ∧
      (walk_loop env mem top n p0).exited
        = (walk_loop env mem top (n - (m + 1))
            ((l.addr + chunksize mem l.addr) % WORD)).exited := by
  intro n
  induction n with
  | zero => intro p0 m l hl; simp [walk_loop] at hl
  | succ n ih =>
    intro p0 m l hl hm
    by_cases hp : p0 = NULL
    · subst hp
      rw [walk_loop_null] at hl
      simp at hl
    · rw [walk_loop_succ env mem top n p0 hp] at hl ⊢
      dsimp only at hl ⊢
      cases m with
      | zero =>
        simp only [List.getElem?_cons_zero, Option.some.injEq] at hl
        subst hl
        rw [(walk_body_addr env mem top p0).1, ← walk_body_continues env mem top p0 hm]
        refine ⟨by simp; omega, ?_, by simp⟩
        intro j
        rw [show 0 + 1 + j = j + 1 by omega, List.getElem?_cons_succ]
        simp
      | succ m1 =>
        rw [List.getElem?_cons_succ] at hl
        obtain ⟨h1, h2, h3⟩ := ih _ m1 l hl hm
        have e : n + 1 - (m1 + 1 + 1) = n - (m1 + 1) := by omega
        rw [e]
        refine ⟨by simp only [List.length_cons]; omega, ?_, h3⟩
        intro j
        rw [show m1 + 1 + 1 + j = (m1 + 1 + j) + 1 by omega, List.getElem?_cons_succ]
        exact h2 j

/-- In a walk that has exited, at most one line is the `[free]` or in-use line
of a chunk followed by `B`. -/
theorem followed_by_unique (env : Env) (mem : Mem) (top B n p0 : Nat)
    (hex : (walk_loop env mem top n p0).exited = true) :
    ∀ (m1 m2 : Nat) (l1 l2 : ChunkLine), (walk_loop env mem top n p0).lines[m1]? = some l1 →
      (walk_loop env mem top n p0).lines[m2]? = some l2 →
      FollowedBy mem B l1 → FollowedBy mem B l2 → m1 = m2 := by
  have key : ∀ (m1 m2 : Nat) (l1 l2 : ChunkLine), m1 < m2 →
      (walk_loop env mem top n p0).lines[m1]? = some l1 →
      (walk_loop env mem top n p0).lines[m2]? = some l2 →
      FollowedBy mem B l1 → FollowedBy mem B l2 → False := by
    intro m1 m2 l1 l2 hlt h1 h2 hf1 hf2
    obtain ⟨a1, a2, a3⟩ := walk_loop_split env mem top n p0 m1 l1 h1 hf1.1
    rw [hf1.2] at a1 a2 a3
    have e2 : m2 = m1 + 1 + (m2 - m1 - 1) := by omega
    rw [e2, a2] at h2
    obtain ⟨b1, _, b3⟩ := walk_loop_split env mem top _ B _ l2 h2 hf2.1
    rw [hf2.2] at b1 b3
    rw [hex] at a3
    rw [← a3] at b3
    have hm := walk_loop_mono env mem top _ B b3.symm (n - (m1 + 1)) (by omega)
    rw [← hm] at b1
    omega
  intro m1 m2 l1 l2 h1 h2 hf1 hf2
  rcases Nat.lt_trichotomy m1 m2 with h | h | h
  · exact absurd (key m1 m2 l1 l2 h h1 h2 hf1 hf2) id
  · exact h
  · exact absurd (key m2 m1 l2 l1 h h2 h1 hf2 hf1) id

/-- When the walk goes through `p(i)`, line `i` is the `[free]` or in-use line
of the chunk `p(i)`, which is followed by `p(i+1)`. -/
theorem walk_loop_line_at (env : Env) (mem : Mem) (top p0 i n : Nat)
    (hw : WalksThrough mem top p0 (i + 1)) (hn : i < n) :
    ∃ l, (walk_loop env mem top n p0).lines[i]? = some l ∧
      l.addr = chunk_chain mem p0 i ∧
      FollowedBy mem (chunk_chain mem p0 (i + 1)) l := by
  have e : n = (i + 1) + (n - (i + 1)) := by omega
  obtain ⟨_, h1, h2⟩ := hw i (by omega)
  refine ⟨(walk_body env mem top (chunk_chain mem p0 i)).1, ?_,
    (walk_body_addr env mem top _).1, ?_, ?_⟩
  · rw [e, walk_loop_chain env mem top (i + 1) p0 _ hw]
    dsimp only
    rw [List.getElem?_append_left (by simp)]
    simp
  · rcases walk_body_classify env mem top _ h1 h2 with ⟨_, hl⟩ | ⟨_, hl⟩ <;> rw [hl] <;> simp
  · rw [(walk_body_addr env mem top _).1]
    rfl

/-! ## C5: changing the `PREV_INUSE` bit of one chunk -/

/-- The statement about one walk that C5 makes for both loops. -/
theorem walk_loop_flip_effect (env : Env) (mem : Mem) (top p0 i B n : Nat)
    (hp0 : p0 < WORD) (hB : chunk_chain mem p0 (i + 1) = B)
    (hok : B = top ∨ chunksize mem B ≠ 0) :
    (walk_loop env (flip_prev_inuse mem B) top n p0).exited
      = (walk_loop env mem top n p0).exited ∧
    List.Forall₂ (LineAfterFlip mem B) (walk_loop env mem top n p0).lines
      (walk_loop env (flip_prev_inuse mem B) top n p0).lines ∧
    (WalksThrough mem top p0 (i + 1) → i < n →
      ∃ l, (walk_loop env mem top n p0).lines[i]? = some l ∧
        l.addr = chunk_chain mem p0 i ∧ FollowedBy mem B l) ∧
    ((walk_loop env mem top n p0).exited = true →
      ∀ (m1 m2 : Nat) (l1 l2 : ChunkLine),
        (walk_loop env mem top n p0).lines[m1]? = some l1 →
        (walk_loop env mem top n p0).lines[m2]? = some l2 →
        FollowedBy mem B l1 → FollowedBy mem B l2 → m1 = m2) := by
  have hBlt : B < WORD := by
    rw [← hB]
    exact chunk_chain_lt mem p0 hp0 (i + 1)
  have h8 : p0 % 8 = B % 8 := by
    rw [← hB, chunk_chain_aligned]
  obtain ⟨h1, h2⟩ := walk_loop_flip env mem top B hBlt hok n p0 hp0 h8
  refine ⟨h1, h2, ?_, followed_by_unique env mem top B n p0⟩
  intro hw hn
  rw [← hB]
  exact walk_loop_line_at env mem top p0 i n hw hn

/-- C5, as amended: let `B = p(i+1)` be the successor of the chunk
`A = p(i)` in the chain of a walk that starts at a 64-bit address `p0`, and
change only the `PREV_INUSE` bit of `B`'s size field.  Provided the change
leaves the arena's top pointer as the loop reads it unchanged, and `B` is the
arena's top chunk or has a non-zero size component, then for every number of
allowed iterations the loop of `dump_non_main_heap` and the loop of
`dump_main_heap` exit alike before and after the change and print the same
number of lines, each line with the same address and size; the classification
is exchanged between `[free]` and in-use on the free or in-use lines of chunks
followed by `B`, and is unchanged on every other line, the line of `B`
included.  When the walk goes through `A`, line `i` is such a line of `A`; and
when the walk exits, it is the only one. -/
theorem prev_inuse_flip_changes_only_predecessor (env : Env) (mem : Mem)
    (p0 i B n : Nat) (hp0 : p0 < WORD) (hB : chunk_chain mem p0 (i + 1) = B) :
    (∀ heap,
      arena_top (flip_prev_inuse mem B) (heap_ar_ptr (flip_prev_inuse mem B) heap)
        = arena_top mem (heap_ar_ptr mem heap) →
      (B = arena_top mem (heap_ar_ptr mem heap) ∨ chunksize mem B ≠ 0) →
      (dump_non_main_heap_loop env (flip_prev_inuse mem B) heap n p0).exited
        = (dump_non_main_heap_loop env mem heap n p0).exited ∧
      List.Forall₂ (LineAfterFlip mem B) (dump_non_main_heap_loop env mem heap n p0).lines
        (dump_non_main_heap_loop env (flip_prev_inuse mem B) heap n p0).lines ∧
      (WalksThrough mem (arena_top mem (heap_ar_ptr mem heap)) p0 (i + 1) → i < n →
        ∃ l, (dump_non_main_heap_loop env mem heap n p0).lines[i]? = some l ∧
          l.addr = chunk_chain mem p0 i ∧ FollowedBy mem B l) ∧
      ((dump_non_main_heap_loop env mem heap n p0).exited = true →
        ∀ (m1 m2 : Nat) (l1 l2 : ChunkLine),
          (dump_non_main_heap_loop env mem heap n p0).lines[m1]? = some l1 →
          (dump_non_main_heap_loop env mem heap n p0).lines[m2]? = some l2 →
          FollowedBy mem B l1 → FollowedBy mem B l2 → m1 = m2)) ∧
    (∀ main_arena,
      arena_top (flip_prev_inuse mem B) main_arena = arena_top mem main_arena →
      (B = arena_top mem main_arena ∨ chunksize mem B ≠ 0) →
      (dump_main_heap_loop env (flip_prev_inuse mem B) main_arena n p0).exited
        = (dump_main_heap_loop env mem main_arena n p0).exited ∧
      List.Forall₂ (LineAfterFlip mem B) (dump_main_heap_loop env mem main_arena n p0).lines
        (dump_main_heap_loop env (flip_prev_inuse mem B) main_arena n p0).lines ∧
      (WalksThrough mem (arena_top mem main_arena) p0 (i + 1) → i < n →
        ∃ l, (dump_main_heap_loop env mem main_arena n p0).lines[i]? = some l ∧
          l.addr = chunk_chain mem p0 i ∧ FollowedBy mem B l) ∧
      ((dump_main_heap_loop env mem main_arena n p0).exited = true →
        ∀ (m1 m2 : Nat) (l1 l2 : ChunkLine),
          (dump_main_heap_loop env mem main_arena n p0).lines[m1]? = some l1 →
          (dump_main_heap_loop env mem main_arena n p0).lines[m2]? = some l2 →
          FollowedBy mem B l1 → FollowedBy mem B l2 → m1 = m2)) := by
  constructor
  · intro heap htop hok
    rw [dump_non_main_heap_loop_eq_walk, dump_non_main_heap_loop_eq_walk, htop]
    exact walk_loop_flip_effect env mem _ p0 i B n hp0 hB hok
  · intro main_arena htop hok
    rw [dump_main_heap_loop_eq_walk, dump_main_heap_loop_eq_walk, htop]
    exact walk_loop_flip_effect env mem _ p0 i B n hp0 hB hok

/-- C5 as amended, on `hello_mem`: changing the `PREV_INUSE` bit of the free
chunk `0x5020` turns the line of the chunk `0x5000` before it from in-use to
`[free]` and leaves the two other lines as they were. -/
theorem prev_inuse_flip_changes_only_predecessor_witness :
    ((0x5000 : Nat) < WORD ∧ chunk_chain hello_mem 0x5000 (0 + 1) = 0x5020 ∧
      arena_top (flip_prev_inuse hello_mem 0x5020) 0x2000 = arena_top hello_mem 0x2000 ∧
      (0x5020 = arena_top hello_mem 0x2000 ∨ chunksize hello_mem 0x5020 ≠ 0)) ∧
    ((dump_main_heap_loop example_env (flip_prev_inuse hello_mem 0x5020) 0x2000 3 0x5000).exited
        = (dump_main_heap_loop example_env hello_mem 0x2000 3 0x5000).exited ∧
      List.Forall₂ (LineAfterFlip hello_mem 0x5020)
        (dump_main_heap_loop example_env hello_mem 0x2000 3 0x5000).lines
        (dump_main_heap_loop example_env (flip_prev_inuse hello_mem 0x5020) 0x2000 3
          0x5000).lines) ∧
    (dump_main_heap_loop example_env hello_mem 0x2000 3 0x5000).lines.map
        (fun l => (l.addr, l.size, l.marker))
      = [(0x5000, 32, Marker.inuse), (0x5020, 48, Marker.free),
          (0x5050, 0xfb0, Marker.top)] ∧
    (dump_main_heap_loop example_env (flip_prev_inuse hello_mem 0x5020) 0x2000 3
        0x5000).lines.map (fun l => (l.addr, l.size, l.marker))
      = [(0x5000, 32, Marker.free), (0x5020, 48, Marker.free),
          (0x5050, 0xfb0, Marker.top)] :=
  ⟨by decide,
    ⟨((prev_inuse_flip_changes_only_predecessor example_env hello_mem 0x5000 0 0x5020 3
        (by decide) (by decide)).2 0x2000 (by decide) (by decide)).1,
      ((prev_inuse_flip_changes_only_predecessor example_env hello_mem 0x5000 0 0x5020 3
        (by decide) (by decide)).2 0x2000 (by decide) (by decide)).2.1⟩,
    by decide, by decide⟩

/-- C5 as stated fails.  On `fence_mem` the chunk `A` (`0x40008c0`, resp.
`0x5000`; in use, neither top nor fence) is followed by a chunk `B` whose raw
size field is `PREV_INUSE`; changing that bit of `B`, which does not touch the
top pointer, turns the line of `B` from `(fence)` into `[free]` and the walk no
longer exits: with 4 iterations allowed it prints 4 lines instead of 2.  On
`alias_mem` the changed byte belongs to the arena's top pointer, and the line
of `B` turns from `(top)` into `[free]`. -/
theorem prev_inuse_flip_counterexample :
    (chunk_chain fence_mem 0x40008c0 1 = 0x40008e0 ∧
      arena_top (flip_prev_inuse fence_mem 0x40008e0)
          (heap_ar_ptr (flip_prev_inuse fence_mem 0x40008e0) 0x4000000)
        = arena_top fence_mem (heap_ar_ptr fence_mem 0x4000000) ∧
      dump_non_main_heap_loop example_env fence_mem 0x4000000 4 0x40008c0
        = ⟨[⟨0x40008c0, 32, Marker.inuse, some (List.replicate 16 48)⟩,
            ⟨0x40008e0, 0, Marker.fence, none⟩], true⟩ ∧
      dump_non_main_heap_loop example_env (flip_prev_inuse fence_mem 0x40008e0)
          0x4000000 4 0x40008c0
        = ⟨[⟨0x40008c0, 32, Marker.free, none⟩, ⟨0x40008e0, 0, Marker.free, none⟩,
            ⟨0x40008e0, 0, Marker.free, none⟩, ⟨0x40008e0, 0, Marker.free, none⟩],
           false⟩) ∧
    (chunk_chain fence_mem 0x5000 1 = 0x5020 ∧
      arena_top (flip_prev_inuse fence_mem 0x5020) 0x2000 = arena_top fence_mem 0x2000 ∧
      dump_main_heap_loop example_env fence_mem 0x2000 4 0x5000
        = ⟨[⟨0x5000, 32, Marker.inuse, some (List.replicate 16 48)⟩,
            ⟨0x5020, 0, Marker.fence, none⟩], true⟩ ∧
      dump_main_heap_loop example_env (flip_prev_inuse fence_mem 0x5020) 0x2000 4 0x5000
        = ⟨[⟨0x5000, 32, Marker.free, none⟩, ⟨0x5020, 0, Marker.free, none⟩,
            ⟨0x5020, 0, Marker.free, none⟩, ⟨0x5020, 0, Marker.free, none⟩], false⟩) ∧
    (chunk_chain alias_mem 0x2038 1 = 0x2058 ∧
      arena_top alias_mem 0x2000 = 0x2058 ∧
      arena_top (flip_prev_inuse alias_mem 0x2058) 0x2000 = 0x2059 ∧
      dump_main_heap_loop example_env alias_mem 0x2000 4 0x2038
        = ⟨[⟨0x2038, 32, Marker.free, none⟩, ⟨0x2058, 0x2058, Marker.top, none⟩], true⟩ ∧
      dump_main_heap_loop example_env (flip_prev_inuse alias_mem 0x2058) 0x2000 4 0x2038
        = ⟨[⟨0x2038, 32, Marker.inuse, some (List.replicate 16 48)⟩,
            ⟨0x2058, 0x2058, Marker.free, none⟩, ⟨0x40b0, 0, Marker.free, none⟩,
            ⟨0x40b0, 0, Marker.free, none⟩], false⟩) := by
  decide

/-! ## C11: which pages `print_page_usages` queries -/

theorem MIN_eq_min (a b : Nat) : MIN a b = min a b := by
  unfold MIN
  split <;> omega

/-- The values computed at the head of `print_page_usages` for a page size
`2^k` when `len + pageSize - 1` does not wrap. -/
theorem print_page_usages_values (addr len k : Nat) (hk : k < 64) (haddr : addr < WORD)
    (hlen : len + 2 ^ k - 1 < WORD) :
    addr &&& bitNot ((2 ^ k + WORD - 1) % WORD) = addr / 2 ^ k * 2 ^ k ∧
    (len + 2 ^ k + WORD - 1) % WORD / 2 ^ k = (len + 2 ^ k - 1) / 2 ^ k ∧
    min ((len + 2 ^ k - 1) / 2 ^ k) 131072 * 2 ^ k % WORD
      = min ((len + 2 ^ k - 1) / 2 ^ k) 131072 * 2 ^ k := by
  have hpos : 0 < 2 ^ k := by positivity
  have hps : 2 ^ k < WORD := by
    unfold WORD
    exact Nat.pow_lt_pow_right (by norm_num) hk
  refine ⟨?_, ?_, ?_⟩
  · have e : (2 ^ k + WORD - 1) % WORD = 2 ^ k - 1 := by
      have e1 : 2 ^ k + WORD - 1 = (2 ^ k - 1) + WORD := by omega
      rw [e1, Nat.add_mod_right, Nat.mod_eq_of_lt (by omega)]
    rw [e, and_bitNot_low addr k (by omega), Nat.mod_eq_of_lt haddr]
  · have e1 : len + 2 ^ k + WORD - 1 = (len + 2 ^ k - 1) + WORD := by omega
    rw [e1, Nat.add_mod_right, Nat.mod_eq_of_lt hlen]
  · apply Nat.mod_eq_of_lt
    have h1 : (len + 2 ^ k - 1) / 2 ^ k * 2 ^ k ≤ len + 2 ^ k - 1 := Nat.div_mul_le_self _ _
    have h2 : min ((len + 2 ^ k - 1) / 2 ^ k) 131072 * 2 ^ k
        ≤ (len + 2 ^ k - 1) / 2 ^ k * 2 ^ k :=
      Nat.mul_le_mul_right _ (Nat.min_le_left _ _)
    omega

/-- C11: for a page size `2^k` (`k < 64`), a 64-bit `addr` and a `len` such
that `len + pageSize - 1` does not wrap, let `numPages = (len + pageSize - 1) /
pageSize`, which is the least number of pages that hold `len` bytes, and
`m = min(numPages, 131072)`.  Then `print_page_usages` calls `mincore` on
exactly `m` pages, `m * pageSize` bytes, from `addr` rounded down to a
multiple of `pageSize`; when the call succeeds the line carries the
`(incomplete)` marker if and only if `numPages > 131072`, and when it fails
the line is the `ERROR` line. -/
theorem print_page_usages_queries_capped_pages (env : Env) (addr len k : Nat)
    (hk : k < 64) (haddr : addr < WORD) (hlen : len + 2 ^ k - 1 < WORD) :
    (len ≤ (len + 2 ^ k - 1) / 2 ^ k * 2 ^ k ∧
      ∀ n, len ≤ n * 2 ^ k → (len + 2 ^ k - 1) / 2 ^ k ≤ n) ∧
    (addr / 2 ^ k * 2 ^ k ≤ addr ∧ addr < addr / 2 ^ k * 2 ^ k + 2 ^ k) ∧
    (∀ vec, env.mincore (addr / 2 ^ k * 2 ^ k)
        (min ((len + 2 ^ k - 1) / 2 ^ k) 131072 * 2 ^ k) = Except.ok vec →
      ∃ text, print_page_usages env addr len (2 ^ k)
        = Line.pages (addr / 2 ^ k * 2 ^ k)
            ((addr / 2 ^ k * 2 ^ k + min ((len + 2 ^ k - 1) / 2 ^ k) 131072 * 2 ^ k) % WORD)
            (PagesBody.bits text (decide (131072 < (len + 2 ^ k - 1) / 2 ^ k)))) ∧
    (∀ e, env.mincore (addr / 2 ^ k * 2 ^ k)
        (min ((len + 2 ^ k - 1) / 2 ^ k) 131072 * 2 ^ k) = Except.error e →
      print_page_usages env addr len (2 ^ k)
        = Line.pages (addr / 2 ^ k * 2 ^ k)
            ((addr / 2 ^ k * 2 ^ k + min ((len + 2 ^ k - 1) / 2 ^ k) 131072 * 2 ^ k) % WORD)
            (PagesBody.error e)) := by
  obtain ⟨h1, h2, h3⟩ := print_page_usages_values addr len k hk haddr hlen
  have hpos : 0 < 2 ^ k := by positivity
  have hcap : sizeof_pagesInUse - 1 = 131072 := by decide
  refine ⟨⟨?_, ?_⟩, ⟨Nat.div_mul_le_self _ _, ?_⟩, ?_, ?_⟩
  · have := Nat.div_add_mod (len + 2 ^ k - 1) (2 ^ k)
    have := Nat.mod_lt (len + 2 ^ k - 1) hpos
    rw [Nat.mul_comm]
    omega
  · intro n hn
    rw [Nat.div_le_iff_le_mul_add_pred hpos, Nat.mul_comm]
    omega
  · have := Nat.div_add_mod addr (2 ^ k)
    have := Nat.mod_lt addr hpos
    rw [Nat.mul_comm]
    omega
  · intro vec hv
    unfold print_page_usages
    have hdec : decide (min ((len + 2 ^ k - 1) / 2 ^ k) 131072 < (len + 2 ^ k - 1) / 2 ^ k)
        = decide (131072 < (len + 2 ^ k - 1) / 2 ^ k) := by
      apply decide_eq_decide.mpr
      omega
    simp only [h1, h2, hcap, MIN_eq_min, h3, hv, hdec]
    exact ⟨_, rfl⟩
  · intro e he
    unfold print_page_usages
    simp only [h1, h2, hcap, MIN_eq_min, h3, he]
/-- C11 for pages of 4096 bytes: a range of exactly 131072 pages that starts
inside a page is queried in full from the page boundary and gets no marker, a
range of 131073 pages is queried for 131072 pages and gets the marker. -/
theorem print_page_usages_queries_capped_pages_witness :
    ((12 : Nat) < 64 ∧ (0x5010 : Nat) < WORD ∧ 131072 * 4096 + 2 ^ 12 - 1 < WORD ∧
      131073 * 4096 + 2 ^ 12 - 1 < WORD) ∧
    (∀ vec, example_env.mincore (0x5010 / 2 ^ 12 * 2 ^ 12)
        (min ((131072 * 4096 + 2 ^ 12 - 1) / 2 ^ 12) 131072 * 2 ^ 12) = Except.ok vec →
      ∃ text, print_page_usages example_env 0x5010 (131072 * 4096) (2 ^ 12)
        = Line.pages (0x5010 / 2 ^ 12 * 2 ^ 12)
            ((0x5010 / 2 ^ 12 * 2 ^ 12
              + min ((131072 * 4096 + 2 ^ 12 - 1) / 2 ^ 12) 131072 * 2 ^ 12) % WORD)
            (PagesBody.bits text
              (decide (131072 < (131072 * 4096 + 2 ^ 12 - 1) / 2 ^ 12)))) ∧
    (∀ vec, example_env.mincore (0x5010 / 2 ^ 12 * 2 ^ 12)
        (min ((131073 * 4096 + 2 ^ 12 - 1) / 2 ^ 12) 131072 * 2 ^ 12) = Except.ok vec →
      ∃ text, print_page_usages example_env 0x5010 (131073 * 4096) (2 ^ 12)
        = Line.pages (0x5010 / 2 ^ 12 * 2 ^ 12)
            ((0x5010 / 2 ^ 12 * 2 ^ 12
              + min ((131073 * 4096 + 2 ^ 12 - 1) / 2 ^ 12) 131072 * 2 ^ 12) % WORD)
            (PagesBody.bits text
              (decide (131072 < (131073 * 4096 + 2 ^ 12 - 1) / 2 ^ 12)))) ∧
    (0x5010 / 2 ^ 12 * 2 ^ 12 = 0x5000 ∧
      min ((131072 * 4096 + 2 ^ 12 - 1) / 2 ^ 12) 131072 = 131072 ∧
      decide (131072 < (131072 * 4096 + 2 ^ 12 - 1) / 2 ^ 12) = false ∧
      min ((131073 * 4096 + 2 ^ 12 - 1) / 2 ^ 12) 131072 = 131072 ∧
      decide (131072 < (131073 * 4096 + 2 ^ 12 - 1) / 2 ^ 12) = true) ∧
    print_page_usages example_env 0x5010 8192 4096
      = Line.pages 0x5000 0x7000 (PagesBody.bits [49, 49] false) :=
  ⟨by decide,
    (print_page_usages_queries_capped_pages example_env 0x5010 (131072 * 4096) 12
      (by decide) (by decide) (by decide)).2.2.1,
    (print_page_usages_queries_capped_pages example_env 0x5010 (131073 * 4096) 12
      (by decide) (by decide) (by decide)).2.2.1,
    by decide, by decide⟩

/-! ## C12: the text printed for the residency bytes -/

theorem pagesInUse_loop_spec :
    ∀ (n i : Nat) (buf : Nat → Nat) (j : Nat),
      pagesInUse_loop n i buf j
        = if i ≤ j ∧ j < i + n then (if buf j ≠ 0 then 49 else 48) else buf j := by
  intro n
  induction n with
  | zero =>
    intro i buf j
    have h : ¬ (i ≤ j ∧ j < i + 0) := by omega
    rw [if_neg h]
    rfl
  | succ n ih =>
    intro i buf j
    show pagesInUse_loop n (i + 1) (set_entry buf i (if buf i ≠ 0 then 49 else 48)) j = _
    rw [ih]
    unfold set_entry
    by_cases h1 : j = i
    · subst h1
      have h2 : ¬ (j + 1 ≤ j ∧ j < j + 1 + n) := by omega
      have h3 : j ≤ j ∧ j < j + (n + 1) := by omega
      rw [if_neg h2, if_pos h3, if_pos rfl]
    · by_cases h2 : i + 1 ≤ j ∧ j < i + 1 + n
      · have h3 : i ≤ j ∧ j < i + (n + 1) := by omega
        rw [if_pos h2, if_pos h3, if_neg h1]
      · have h3 : ¬ (i ≤ j ∧ j < i + (n + 1)) := by omega
        rw [if_neg h2, if_neg h3, if_neg h1]

theorem c_string_nonzero_run (buf : Nat → Nat) :
    ∀ (m r i : Nat), (∀ j, j < m → buf (i + j) ≠ 0) →
      c_string buf (m + r) i
        = (List.range m).map (fun j => buf (i + j)) ++ c_string buf r (i + m) := by
  intro m
  induction m with
  | zero => intro r i _; simp
  | succ m ih =>
    intro r i h
    have e : m + 1 + r = (m + r) + 1 := by omega
    have h0 : buf i ≠ 0 := by simpa using h 0 (by omega)
    rw [e]
    show (if buf i = 0 then [] else buf i :: c_string buf (m + r) (i + 1)) = _
    rw [if_neg h0, ih r (i + 1) (fun j hj => by
      have := h (j + 1) (by omega)
      rwa [show i + (j + 1) = i + 1 + j by omega] at this),
      List.range_succ_eq_map]
    simp only [List.map_cons, List.map_map, List.cons_append, Nat.add_zero]
    congr 2
    · apply List.map_congr_left
      intro j _
      simp only [Function.comp, Nat.succ_eq_add_one]
      congr 1
      omega
    · congr 1
      omega

/-- The text that `%s` prints after a successful query of `m` pages: the `m`
characters for the bytes stored by `mincore`, followed by whatever the array
holds from index `m` up to the first NUL; nothing follows when `m` is 131072
or the array held 0 at index `m` before the call. -/
theorem residency_text_spec (env : Env) (vec : List Nat) (m : Nat)
    (hm : m ≤ sizeof_pagesInUse - 1) (hv : vec.length = m) :
    c_string (set_entry (pagesInUse_loop m 0 (pagesInUse_after_mincore env vec))
        (sizeof_pagesInUse - 1) 0) sizeof_pagesInUse 0
      = vec.map (fun b => if b % 256 ≠ 0 then 49 else 48)
        ++ c_string (set_entry (pagesInUse_loop m 0 (pagesInUse_after_mincore env vec))
            (sizeof_pagesInUse - 1) 0) (sizeof_pagesInUse - m) m ∧
    (m = sizeof_pagesInUse - 1 ∨ env.stack m % 256 = 0 →
      c_string (set_entry (pagesInUse_loop m 0 (pagesInUse_after_mincore env vec))
          (sizeof_pagesInUse - 1) 0) (sizeof_pagesInUse - m) m = []) := by
  have hcap : sizeof_pagesInUse = 131073 := by decide
  rw [hcap] at hm ⊢
  have hbuf : ∀ j, j < m →
      set_entry (pagesInUse_loop m 0 (pagesInUse_after_mincore env vec)) (131073 - 1) 0 j
        = if vec[j]?.getD 0 % 256 ≠ 0 then 49 else 48 := by
    intro j hj
    unfold set_entry
    rw [if_neg (by omega), pagesInUse_loop_spec, if_pos (by omega)]
    unfold pagesInUse_after_mincore
    rw [List.getElem?_eq_getElem (by omega)]
    simp
  have hzero : m = 131073 - 1 ∨ env.stack m % 256 = 0 →
      set_entry (pagesInUse_loop m 0 (pagesInUse_after_mincore env vec))
        (131073 - 1) 0 m = 0 := by
    intro h
    unfold set_entry
    by_cases hc : m = 131073 - 1
    · rw [if_pos hc]
    · rw [if_neg hc, pagesInUse_loop_spec, if_neg (by omega)]
      unfold pagesInUse_after_mincore
      rw [List.getElem?_eq_none (by omega)]
      rcases h with h | h
      · exact absurd h hc
      · exact h
  generalize set_entry (pagesInUse_loop m 0 (pagesInUse_after_mincore env vec))
    (131073 - 1) 0 = buf1 at hbuf hzero ⊢
  constructor
  · have e : c_string buf1 131073 0 = c_string buf1 (m + (131073 - m)) 0 := by
      congr 1
      omega
    rw [e, c_string_nonzero_run _ m _ 0 (by
      intro j hj
      rw [Nat.zero_add, hbuf j hj]
      split <;> simp), Nat.zero_add]
    congr 1
    apply List.ext_getElem?
    intro j
    by_cases hj : j < m
    · rw [List.getElem?_map, List.getElem?_range hj, List.getElem?_map,
        List.getElem?_eq_getElem (by omega)]
      simp only [Option.map_some', Nat.zero_add]
      rw [hbuf j hj, List.getElem?_eq_getElem (by omega)]
      simp
    · rw [List.getElem?_eq_none (by simp; omega), List.getElem?_eq_none (by simp; omega)]
  · intro h
    have e : 131073 - m = (131073 - m - 1) + 1 := by omega
    rw [e]
    show (if _ = 0 then [] else _) = []
    rw [if_pos (hzero h)]

/-- C12 fails on the code.  For one page (`addr = 0x5000`, `len = 4096`,
`pageSize = 4096`) `mincore` succeeds and stores the single byte 1; the array
`pagesInUse` held the byte `X` at index 1 before the call.  Only the last
entry of the array is set to NUL, so `%s` prints the two characters `1X`
where the claim has the one character `1`. -/
theorem print_page_usages_prints_stack_garbage :
    garbage_env.mincore 0x5000 4096 = Except.ok [1] ∧
    MIN ((4096 + 4096 + WORD - 1) % WORD / 4096) (sizeof_pagesInUse - 1) = 1 ∧
    print_page_usages garbage_env 0x5000 4096 4096
      = Line.pages 0x5000 0x6000 (PagesBody.bits [49, 88] false) :=
  ⟨rfl, by decide, by decide⟩

/-! ## C13: the chunk walk does not depend on the residency query -/

theorem print_page_usages_is_pages (env : Env) (addr len pageSize : Nat) :
    ∃ lo hi body, print_page_usages env addr len pageSize = Line.pages lo hi body := by
  unfold print_page_usages
  dsimp only
  split <;> exact ⟨_, _, _, rfl⟩

theorem walk_body_env (env env1 : Env) (mem : Mem) (top p : Nat) :
    walk_body env mem top p = walk_body env1 mem top p := by
  unfold walk_body
  rw [chunk_preview_eq env, chunk_preview_eq env1]

theorem walk_loop_env (env env1 : Env) (mem : Mem) (top : Nat) :
    ∀ n p, walk_loop env mem top n p = walk_loop env1 mem top n p := by
  intro n
  induction n with
  | zero => intro p; rfl
  | succ n ih =>
    intro p
    simp only [walk_loop, walk_body_env env env1, ih]

theorem chunk_lines_dump (head pages : Line) (ls : List ChunkLine)
    (hh : ∃ a s, head = Line.heap a s) (hp : ∃ lo hi body, pages = Line.pages lo hi body) :
    chunk_lines (head :: pages :: ls.map Line.chunk) = ls := by
  obtain ⟨a, s, rfl⟩ := hh
  obtain ⟨lo, hi, body, rfl⟩ := hp
  have hmap : ∀ l : List ChunkLine, chunk_lines (l.map Line.chunk) = l := by
    intro l
    induction l with
    | nil => rfl
    | cons c t ih =>
      unfold chunk_lines at ih ⊢
      rw [List.map_cons, List.filterMap_cons]
      dsimp only
      rw [ih]
  have e : chunk_lines (Line.heap a s :: Line.pages lo hi body :: ls.map Line.chunk)
      = chunk_lines (ls.map Line.chunk) := rfl
  rw [e, hmap]

theorem chunk_lines_dump_non_main_heap (env : Env) (mem : Mem) (fuel : Nat) (path : String)
    (heap : Nat) (hf : env.fopen path = true) :
    chunk_lines (dump_non_main_heap env mem fuel path heap).out
      = (walk_loop env mem (arena_top mem (heap_ar_ptr mem heap)) fuel
          (first_chunk mem heap)).lines := by
  rw [dump_non_main_heap_eq_walk env mem fuel path heap hf]
  exact chunk_lines_dump _ _ _ ⟨_, _, rfl⟩ (print_page_usages_is_pages env _ _ _)

theorem chunk_lines_dump_main_heap (env : Env) (mem : Mem) (fuel : Nat) (path : String)
    (main_arena : Nat) (hf : env.fopen path = true) :
    chunk_lines (dump_main_heap env mem fuel path main_arena).out
      = (walk_loop env mem (arena_top mem main_arena) fuel
          (main_heap_base mem main_arena)).lines := by
  rw [dump_main_heap_eq_walk env mem fuel path main_arena hf]
  exact chunk_lines_dump _ _ _ ⟨_, _, rfl⟩ (print_page_usages_is_pages env _ _ _)

/-- C13: the chunk lines printed by `dump_non_main_heap` and by
`dump_main_heap`, and whether the call returns, are the same in any two
environments in which the file opens alike: they do not depend on whether
`mincore` succeeds, on the bytes it stores, or on the page size.  When
`mincore` fails with `errno = e`, what is printed is the header line, one
`ERROR` line for `e` in place of the bitstring, and then the chunk lines of
the walk. -/
theorem chunk_walk_independent_of_residency_query (env env1 : Env) (mem : Mem)
    (fuel : Nat) (path : String) (hfo : env1.fopen path = env.fopen path) :
    (∀ heap,
      chunk_lines (dump_non_main_heap env1 mem fuel path heap).out
        = chunk_lines (dump_non_main_heap env mem fuel path heap).out ∧
      (dump_non_main_heap env1 mem fuel path heap).returned
        = (dump_non_main_heap env mem fuel path heap).returned) ∧
    (∀ main_arena,
      chunk_lines (dump_main_heap env1 mem fuel path main_arena).out
        = chunk_lines (dump_main_heap env mem fuel path main_arena).out ∧
      (dump_main_heap env1 mem fuel path main_arena).returned
        = (dump_main_heap env mem fuel path main_arena).returned) ∧
    (∀ e, env.fopen path = true → (∀ a l, env.mincore a l = Except.error e) →
      (∀ heap, ∃ lo hi, (dump_non_main_heap env mem fuel path heap).out
        = Line.heap heap (heap_size mem heap) :: Line.pages lo hi (PagesBody.error e)
          :: (dump_non_main_heap_loop env mem heap fuel
              (first_chunk mem heap)).lines.map Line.chunk) ∧
      (∀ main_arena, ∃ lo hi, (dump_main_heap env mem fuel path main_arena).out
        = Line.heap (main_heap_base mem main_arena) (arena_system_mem mem main_arena)
          :: Line.pages lo hi (PagesBody.error e)
          :: (dump_main_heap_loop env mem main_arena fuel
              (main_heap_base mem main_arena)).lines.map Line.chunk)) := by
  refine ⟨?_, ?_, ?_⟩
  · intro heap
    by_cases hf : env.fopen path = true
    · have hf1 : env1.fopen path = true := by rw [hfo, hf]
      rw [chunk_lines_dump_non_main_heap env1 mem fuel path heap hf1,
        chunk_lines_dump_non_main_heap env mem fuel path heap hf,
        dump_non_main_heap_eq_walk env1 mem fuel path heap hf1,
        dump_non_main_heap_eq_walk env mem fuel path heap hf,
        walk_loop_env env1 env]
      exact ⟨rfl, rfl⟩
    · have hf0 : env.fopen path = false := by simpa using hf
      have hf1 : env1.fopen path = false := by rw [hfo, hf0]
      simp [dump_non_main_heap, hf0, hf1]
  · intro main_arena
    by_cases hf : env.fopen path = true
    · have hf1 : env1.fopen path = true := by rw [hfo, hf]
      rw [chunk_lines_dump_main_heap env1 mem fuel path main_arena hf1,
        chunk_lines_dump_main_heap env mem fuel path main_arena hf,
        dump_main_heap_eq_walk env1 mem fuel path main_arena hf1,
        dump_main_heap_eq_walk env mem fuel path main_arena hf,
        walk_loop_env env1 env]
      exact ⟨rfl, rfl⟩
    · have hf0 : env.fopen path = false := by simpa using hf
      have hf1 : env1.fopen path = false := by rw [hfo, hf0]
      simp [dump_main_heap, hf0, hf1]
  · intro e hf hfail
    have hp : ∀ addr len ps, ∃ lo hi,
        print_page_usages env addr len ps = Line.pages lo hi (PagesBody.error e) := by
      intro addr len ps
      unfold print_page_usages
      simp only [hfail]
      exact ⟨_, _, rfl⟩
    constructor
    · intro heap
      obtain ⟨lo, hi, h⟩ := hp heap (heap_size mem heap) env.pageSize
      refine ⟨lo, hi, ?_⟩
      simp [dump_non_main_heap, hf, h]
    · intro main_arena
      obtain ⟨lo, hi, h⟩ := hp (main_heap_base mem main_arena)
        (arena_system_mem mem main_arena) env.pageSize
      refine ⟨lo, hi, ?_⟩
      simp [dump_main_heap, hf, h]

/-- C13 on `hello_mem`: with a `mincore` that fails and with one that succeeds
the two dumps print the same chunk lines; on failure the second line is the
`ERROR` line. -/
theorem chunk_walk_independent_of_residency_query_witness :
    failing_env.fopen "dump.txt" = example_env.fopen "dump.txt" ∧
    (chunk_lines (dump_non_main_heap failing_env hello_mem 3 "dump.txt" 0x4000000).out
        = chunk_lines (dump_non_main_heap example_env hello_mem 3 "dump.txt" 0x4000000).out ∧
      (dump_non_main_heap failing_env hello_mem 3 "dump.txt" 0x4000000).returned
        = (dump_non_main_heap example_env hello_mem 3 "dump.txt" 0x4000000).returned) ∧
    (chunk_lines (dump_main_heap failing_env hello_mem 3 "dump.txt" 0x2000).out
        = chunk_lines (dump_main_heap example_env hello_mem 3 "dump.txt" 0x2000).out ∧
      (dump_main_heap failing_env hello_mem 3 "dump.txt" 0x2000).returned
        = (dump_main_heap example_env hello_mem 3 "dump.txt" 0x2000).returned) ∧
    dump_main_heap failing_env hello_mem 3 "dump.txt" 0x2000
      = ⟨[Line.heap 0x5000 0x1000,
          Line.pages 0x5000 0x6000 (PagesBody.error 12),
          Line.chunk ⟨0x5000, 32, Marker.inuse,
            some [104, 101, 108, 108, 111, 48, 48, 48, 48, 48, 48, 48, 48, 48, 48, 48]⟩,
          Line.chunk ⟨0x5020, 48, Marker.free, none⟩,
          Line.chunk ⟨0x5050, 0xfb0, Marker.top, none⟩], true⟩ :=
  ⟨rfl,
    (chunk_walk_independent_of_residency_query example_env failing_env hello_mem 3
      "dump.txt" rfl).1 0x4000000,
    (chunk_walk_independent_of_residency_query example_env failing_env hello_mem 3
      "dump.txt" rfl).2.1 0x2000,
    by decide⟩

/-! ## C14: a segment of length zero -/

theorem walk_loop_first_line (env : Env) (mem : Mem) (top n p : Nat) (hp : p ≠ NULL) :
    ∃ l rest, (walk_loop env mem top (n + 1) p).lines = l :: rest ∧ l.addr = p ∧
      l.size = chunksize mem p ∧
      (p = top ∨ mchunk_size mem p = PREV_INUSE →
        rest = [] ∧ (walk_loop env mem top (n + 1) p).exited = true) := by
  rw [walk_loop_succ env mem top n p hp]
  refine ⟨_, _, rfl, (walk_body_addr env mem top p).1, (walk_body_addr env mem top p).2, ?_⟩
  intro h
  have hnull : (walk_body env mem top p).2 = NULL := by
    by_cases ht : p = top
    · rw [walk_body_top env mem top p ht]
    · rcases h with h | h
      · exact absurd h ht
      · rw [walk_body_fence env mem top p ht h]
  dsimp only
  rw [hnull, walk_loop_null]
  exact ⟨rfl, rfl⟩

/-- C15 fails on the code.  In `fencepost_mem`, the end of a non-main segment
as glibc leaves it, the fencepost chunk `p = 0x40008e0` has `chunksize(p) = 16`,
so its extent `[p, p + 16)` holds its two header words and no payload.  The
walk reports it in use with a preview of 16 bytes, and these are the bytes at
`p + 16 .. p + 31`, the header of the fence that follows (`prev_size` 16,
size field 1): the call passes `chunksize(p)`, not the payload length, as
`input_size`. -/
theorem preview_reads_past_small_chunk :
    chunksize fencepost_mem 0x40008e0 = 16 ∧
    chunkdata 0x40008e0 = 0x40008e0 + chunksize fencepost_mem 0x40008e0 ∧
    (List.range 16).map (fun i => load8 fencepost_mem (chunkdata 0x40008e0 + i))
      = [16, 0, 0, 0, 0, 0, 0, 0, 1, 0, 0, 0, 0, 0, 0, 0] ∧
    dump_non_main_heap_loop example_env fencepost_mem 0x4000000 3 0x40008c0
      = ⟨[⟨0x40008c0, 32, Marker.inuse, some (List.replicate 16 48)⟩,
          ⟨0x40008e0, 16, Marker.inuse,
            some [46, 48, 48, 48, 48, 48, 48, 48, 46, 48, 48, 48, 48, 48, 48, 48]⟩,
          ⟨0x40008f0, 0, Marker.fence, none⟩], true⟩ := by
  decide

/-! ## C16: the page range against the segment range -/

/-- C16 fails on the code.  In `unaligned_end_mem` the main arena's segment is
`[0x5010, 0x6010)` (`base = 0x5010`, `system_mem = 0x1000`); with pages of 4096
bytes one page is needed for the length, and the range queried and reported
is `[0x5000, 0x6000)`, which leaves out the bytes `0x6000 .. 0x600f` of the
segment: the page count is computed from `len` alone, without the offset of
`addr` in its page. -/
theorem page_range_misses_segment_end :
    main_heap_base unaligned_end_mem 0x2000 = 0x5010 ∧
    arena_system_mem unaligned_end_mem 0x2000 = 0x1000 ∧
    (0x1000 + 4096 - 1) / 4096 ≤ 131072 ∧
    print_page_usages example_env 0x5010 0x1000 4096
      = Line.pages 0x5000 0x6000 (PagesBody.bits [49] false) ∧
    (0x6000 : Nat) < 0x5010 + 0x1000 ∧
    dump_main_heap example_env unaligned_end_mem 3 "dump.txt" 0x2000
      = ⟨[Line.heap 0x5010 0x1000,
          Line.pages 0x5000 0x6000 (PagesBody.bits [49] false),
          Line.chunk ⟨0x5010, 80, Marker.inuse, some (List.replicate 16 48)⟩,
          Line.chunk ⟨0x5060, 0xfb0, Marker.top, none⟩], true⟩ := by
  decide

/-! ## C17: the alignment of the first chunk -/

/-- C17 fails on the code for the main arena.  The first chunk of a non-main
segment is always a multiple of `MALLOC_ALIGNMENT`, since `dump_non_main_heap`
rounds it up; `dump_main_heap` starts at `base` as computed.  In
`misaligned_base_mem` (`top = 0x5010`, `chunksize(top) = 0xff0`,
`system_mem = 0xff8`) the walk starts at `0x5008`, which is not a multiple of
16, reads the `prev_size` field of the top chunk as a size field, and prints
the same `[free]` line of size 0 at every iteration. -/
theorem main_heap_first_chunk_not_aligned :
    (∀ mem heap, first_chunk mem heap % MALLOC_ALIGNMENT = 0) ∧
    arena_top misaligned_base_mem 0x2000 = 0x5010 ∧
    chunksize misaligned_base_mem 0x5010 = 0xff0 ∧
    arena_system_mem misaligned_base_mem 0x2000 = 0xff8 ∧
    main_heap_base misaligned_base_mem 0x2000 = 0x5008 ∧
    0x5008 % MALLOC_ALIGNMENT = 8 ∧
    dump_main_heap example_env misaligned_base_mem 3 "dump.txt" 0x2000
      = ⟨[Line.heap 0x5008 0xff8,
          Line.pages 0x5000 0x6000 (PagesBody.bits [49] false),
          Line.chunk ⟨0x5008, 0, Marker.free, none⟩,
          Line.chunk ⟨0x5008, 0, Marker.free, none⟩,
          Line.chunk ⟨0x5008, 0, Marker.free, none⟩], false⟩ := by
  refine ⟨?_, by decide, by decide, by decide, by decide, by decide, by decide⟩
  intro mem heap
  unfold first_chunk
  have e : MALLOC_ALIGN_MASK = 2 ^ 4 - 1 := by decide
  have e2 : MALLOC_ALIGNMENT = 16 := by decide
  rw [e, and_bitNot_low _ 4 (by norm_num), e2]
  norm_num

/-! ## C18: the first chunk of a non-main segment -/

/-- C18: for a non-main segment with header at `h`, let `e` be
`h + sizeof(heap_info) + sizeof(malloc_state)` when the segment's `ar_ptr` is
`h + sizeof(heap_info)` and `h + sizeof(heap_info)` otherwise.  If
`e + MALLOC_ALIGN_MASK` does not wrap, the first chunk walked by
`dump_non_main_heap` is the least multiple of `MALLOC_ALIGNMENT` that is at
least `e`; it lies in `[e, e + MALLOC_ALIGNMENT)`, and the first chunk line of
the dump is for this address. -/
theorem first_chunk_is_least_aligned_address (mem : Mem) (h e : Nat)
    (he : e = if heap_ar_ptr mem h = h + sizeof_heap_info
      then h + sizeof_heap_info + sizeof_malloc_state else h + sizeof_heap_info)
    (hwrap : h + sizeof_heap_info + sizeof_malloc_state + MALLOC_ALIGN_MASK < WORD) :
    first_chunk mem h % MALLOC_ALIGNMENT = 0 ∧
    e ≤ first_chunk mem h ∧
    first_chunk mem h < e + MALLOC_ALIGNMENT ∧
    (∀ m, m % MALLOC_ALIGNMENT = 0 → e ≤ m → first_chunk mem h ≤ m) ∧
    (∀ (env : Env) (fuel : Nat) (path : String), env.fopen path = true →
      ∃ l rest, chunk_lines (dump_non_main_heap env mem (fuel + 1) path h).out = l :: rest ∧
        l.addr = first_chunk mem h) := by
  have e1 : MALLOC_ALIGN_MASK = 2 ^ 4 - 1 := by decide
  have e2 : MALLOC_ALIGNMENT = 16 := by decide
  have e3 : sizeof_heap_info = 32 := by decide
  have e4 : sizeof_malloc_state = 2200 := by decide
  rw [e2]
  rw [e1, e3, e4] at hwrap
  rw [e3, e4] at he
  have hfc : first_chunk mem h = (e + 15) / 16 * 16 := by
    unfold first_chunk
    rw [e1, and_bitNot_low _ 4 (by norm_num), e3, e4]
    have hm1 : (h + 32) % WORD = h + 32 := Nat.mod_eq_of_lt (by omega)
    have hm2 : (h + 32 + 2200) % WORD = h + 32 + 2200 := Nat.mod_eq_of_lt (by omega)
    rw [hm1, hm2]
    have hne : (heap_ar_ptr mem h ≠ h + 32) = ¬ (heap_ar_ptr mem h = h + 32) := rfl
    by_cases hc : heap_ar_ptr mem h = h + 32
    · rw [if_pos hc] at he
      rw [if_neg (by rw [hne]; exact not_not.mpr hc), he]
      have hm3 : (h + 32 + 2200 + (2 ^ 4 - 1)) % WORD = h + 32 + 2200 + 15 :=
        Nat.mod_eq_of_lt (by norm_num; omega)
      have hw : h + 32 + 2200 + 15 < WORD := by
        have e5 : 2 ^ 4 - 1 = 15 := by norm_num
        rw [e5] at hwrap
        exact hwrap
      rw [hm3, Nat.mod_eq_of_lt (by omega)]
      norm_num
    · rw [if_neg hc] at he
      rw [if_pos hc, he]
      have hm3 : (h + 32 + (2 ^ 4 - 1)) % WORD = h + 32 + 15 :=
        Nat.mod_eq_of_lt (by norm_num; omega)
      have hw : h + 32 + 2200 + 15 < WORD := by
        have e5 : 2 ^ 4 - 1 = 15 := by norm_num
        rw [e5] at hwrap
        exact hwrap
      rw [hm3, Nat.mod_eq_of_lt (by omega)]
      norm_num
  refine ⟨by rw [hfc]; omega, by rw [hfc]; omega, by rw [hfc]; omega, ?_, ?_⟩
  · intro m hm hem
    rw [hfc]
    omega
  · intro env fuel path hf
    have hpos : first_chunk mem h ≠ NULL := by
      rw [hfc]
      unfold NULL
      have : 0 < e := by
        rw [he]
        split <;> omega
      omega
    obtain ⟨l, rest, h1, h2, _⟩ := walk_loop_first_line env mem
      (arena_top mem (heap_ar_ptr mem h)) fuel (first_chunk mem h) hpos
    exact ⟨l, rest, by rw [chunk_lines_dump_non_main_heap env mem _ path h hf, h1], h2⟩

/-- C18 on `hello_mem`, whose segment `0x4000000` embeds its arena
(`e = 0x40008b8`, first chunk `0x40008c0`), and on `arenas_mem`, whose segment
`0x8000000` does not (`e` and first chunk `0x8000020`). -/
theorem first_chunk_is_least_aligned_address_witness :
    ((0x40008b8 : Nat) = (if heap_ar_ptr hello_mem 0x4000000 = 0x4000000 + sizeof_heap_info
        then 0x4000000 + sizeof_heap_info + sizeof_malloc_state
        else 0x4000000 + sizeof_heap_info) ∧
      0x4000000 + sizeof_heap_info + sizeof_malloc_state + MALLOC_ALIGN_MASK < WORD ∧
      (0x8000020 : Nat) = (if heap_ar_ptr arenas_mem 0x8000000 = 0x8000000 + sizeof_heap_info
        then 0x8000000 + sizeof_heap_info + sizeof_malloc_state
        else 0x8000000 + sizeof_heap_info) ∧
      0x8000000 + sizeof_heap_info + sizeof_malloc_state + MALLOC_ALIGN_MASK < WORD) ∧
    (0x40008b8 ≤ first_chunk hello_mem 0x4000000 ∧
      first_chunk hello_mem 0x4000000 < 0x40008b8 + MALLOC_ALIGNMENT) ∧
    (0x8000020 ≤ first_chunk arenas_mem 0x8000000 ∧
      first_chunk arenas_mem 0x8000000 < 0x8000020 + MALLOC_ALIGNMENT) ∧
    first_chunk hello_mem 0x4000000 = 0x40008c0 ∧
    first_chunk arenas_mem 0x8000000 = 0x8000020 :=
  ⟨by decide,
    ⟨(first_chunk_is_least_aligned_address hello_mem 0x4000000 0x40008b8
        (by decide) (by decide)).2.1,
      (first_chunk_is_least_aligned_address hello_mem 0x4000000 0x40008b8
        (by decide) (by decide)).2.2.1⟩,
    ⟨(first_chunk_is_least_aligned_address arenas_mem 0x8000000 0x8000020
        (by decide) (by decide)).2.1,
      (first_chunk_is_least_aligned_address arenas_mem 0x8000000 0x8000020
        (by decide) (by decide)).2.2.1⟩,
    by decide, by decide⟩

/-! ## C19: chunks of size zero -/

/-- C20: when the top chunk that `dump_non_main_heap` reads through
`heap->ar_ptr->top` is the top chunk that `dump_main_heap` reads through
`main_arena->top`, the two `while` loops started at the same chunk `p` and
allowed the same number of iterations print the same chunk lines (addresses,
sizes, markers and previews) and have exited alike, for every memory image;
each iteration of the two loops prints the same line and goes to the same
next chunk. -/
theorem chunk_loops_are_the_same_walker (env : Env) (mem : Mem) (heap main_arena : Nat)
    (htop : arena_top mem (heap_ar_ptr mem heap) = arena_top mem main_arena) :
    (∀ p, dump_non_main_heap_body env mem heap p = dump_main_heap_body env mem main_arena p) ∧
    (∀ n p, dump_non_main_heap_loop env mem heap n p
      = dump_main_heap_loop env mem main_arena n p) := by
  constructor
  · intro p
    rw [dump_non_main_heap_body_eq_walk, dump_main_heap_body_eq_walk, htop]
  · intro n p
    rw [dump_non_main_heap_loop_eq_walk, dump_main_heap_loop_eq_walk, htop]

/-- C20 on `hello_mem`: the loop of `dump_main_heap`, given the arena of the
segment `0x4000000` as its arena, prints from `0x40008c0` the three lines
that the loop of `dump_non_main_heap` prints for that segment. -/
theorem chunk_loops_are_the_same_walker_witness :
    arena_top hello_mem (heap_ar_ptr hello_mem 0x4000000) = arena_top hello_mem 0x4000020 ∧
    dump_non_main_heap_loop example_env hello_mem 0x4000000 3 0x40008c0
      = dump_main_heap_loop example_env hello_mem 0x4000020 3 0x40008c0 ∧
    dump_main_heap_loop example_env hello_mem 0x4000020 3 0x40008c0
      = ⟨[⟨0x40008c0, 32, Marker.inuse,
            some [104, 101, 108, 108, 111, 48, 48, 48, 48, 48, 48, 48, 48, 48, 48, 48]⟩,
          ⟨0x40008e0, 48, Marker.free, none⟩,
          ⟨0x4000910, 0x206f0, Marker.top, none⟩], true⟩ :=
  ⟨by decide,
    (chunk_loops_are_the_same_walker example_env hello_mem 0x4000000 0x4000020
      (by decide)).2 3 0x40008c0,
    by decide⟩

end PtMallocDump
